import Mathlib

/-!
# mainloop.c: a per-thread epoll reactor

Shallow embedding of `src/mainloop.c`.  The process state is a `World`: the
static registry `threads_data`, the kernel's epoll interest sets, the addresses in
use for watchers, and a trace of the observable events (callback and cleanup
invocations, control calls, descriptor closes, timer programming).  Every function
takes the identity of the calling thread (`pthread_self()`) as `tid`, and each call
is one step.

What the operating system, the allocator and the container answer is passed in as
explicit outcome arguments.  A pointer to a `struct mainloop_data` is the address
of the struct; `malloc` may hand out again an address that was freed, so an event
that the kernel reports with the address of a watcher removed meanwhile can meet
another watcher at that address.  A pointer to a `struct thread_data` designates
the first entry of the registry that `match_tid` accepts.

What client callbacks do is given by a `Client`: an event callback, a signal
callback or a cleanup callback makes any sequence of control and watcher calls,
chosen by looking at the state.  A cleanup callback that removes a watcher runs the
cleanup callback of that watcher inside its own call; `depth` says how many cleanup
calls fit on the call stack at once, and a call beyond that is recorded as
`Event.overflow` with the calls it would make left out.  A trace without
`Event.overflow` is a run of the code.  `mainloop_run` consumes the list of the
returns of `epoll_wait` and stays blocked when the list is used up with the
termination flag clear.
-/

namespace Mainloop

/-! ## Constants of the system headers -/

def EINVAL : Int := 22
def ENOMEM : Int := 12
def ENXIO : Int := 6
def EIO : Int := 5
def EXIT_SUCCESS : Int := 0
def EXIT_FAILURE : Int := 1
def EPOLLIN : Nat := 1
def EPOLLERR : Nat := 8
def EPOLLHUP : Nat := 16
def EPOLLONESHOT : Nat := 1073741824
def MAX_EPOLL_EVENTS : Nat := 10

/-! ## Data model -/

/-- The function stored in `mainloop_data.callback`: a client function pointer or
the static `signal_callback`. -/
inductive Callback where
  | user (f : Nat)
  | signal_callback
  deriving DecidableEq, Repr

/-- The `struct mainloop_data` of one descriptor watcher.  `addr` is the address of
the struct, i.e. the value of a pointer to it.  `block` is not a field of the C
struct: it numbers the allocations in the order `malloc` made them, so that the
trace can tell two watchers that lived at the same address apart. -/
structure mainloop_data where
  addr : Nat
  block : Nat
  fd : Int
  events : Nat
  callback : Callback
  destroy : Option Nat
  user_data : Nat
  epoll_fd : Int
  deriving DecidableEq, Repr

/-- The `struct signal_data`; `mask` stands for the `sigset_t`. -/
structure signal_data where
  fd : Int
  mask : Nat
  callback : Option Nat
  destroy : Option Nat
  user_data : Nat
  deriving DecidableEq, Repr

/-- The `struct thread_data`; `mainloop_list` is `none` for a NULL queue. -/
structure thread_data where
  tid : Nat
  epoll_fd : Int
  epoll_terminate : Int
  exit_status : Int
  mainloop_list : Option (List mainloop_data)
  signal_data : Option signal_data
  deriving DecidableEq, Repr

/-- The `struct itimerspec` handed to `timerfd_settime`. -/
structure itimerspec where
  it_interval_tv_sec : Nat
  it_interval_tv_nsec : Nat
  it_value_tv_sec : Nat
  it_value_tv_nsec : Nat
  deriving DecidableEq, Repr

/-- One registration in the kernel: descriptor `fd` is watched by the epoll
instance `epfd` for `events`, and `data` is the `data.ptr` reported with it, an
address. -/
structure epoll_item where
  epfd : Int
  fd : Int
  events : Nat
  data : Nat
  deriving DecidableEq, Repr

/-- One `struct epoll_event` filled in by `epoll_wait`; `data` is `data.ptr`. -/
structure epoll_event where
  events : Nat
  data : Nat
  deriving DecidableEq, Repr

/-- The control operations `mainloop_quit`, `mainloop_exit_success` and
`mainloop_exit_failure`. -/
inductive Ctl where
  | quit
  | exit_success
  | exit_failure
  deriving DecidableEq, Repr

/-- Observable events, in the order they happen: `invoke` is a call of a watcher's
callback by the dispatch, `signal` a call of the client's signal callback,
`destroy` a call of a watcher's cleanup callback (with the allocation number of the
watcher), `signal_destroy` a call of the signal watcher's cleanup callback,
`registered` a `mainloop_add_fd` that returned 0, `ctl` a control call that found
its context, `close` a descriptor closed, `settime` a timer programmed, `overflow`
a cleanup call for which the call stack has no room. -/
inductive Event where
  | invoke (cb : Callback) (fd : Int) (events : Nat) (user_data : Nat)
  | destroy (block : Nat) (f : Nat) (user_data : Nat)
  | signal_destroy (f : Nat) (user_data : Nat)
  | signal (f : Nat) (signo : Nat) (user_data : Nat)
  | registered (block : Nat) (fd : Int) (destroy : Option Nat) (user_data : Nat)
  | ctl (c : Ctl)
  | close (fd : Int)
  | settime (fd : Int) (it : itimerspec)
  | overflow
  deriving DecidableEq, Repr

/-- The process state.  `heap` lists the addresses in use for watchers, `next_block`
counts the watchers allocated so far. -/
structure World where
  threads_data : Option (List thread_data)
  interest : List epoll_item
  heap : List Nat
  next_block : Nat
  log : List Event
  deriving DecidableEq, Repr

/-- What the environment answers during one `mainloop_add_fd`: whether `malloc`
returns a block and at which address, whether the kernel accepts the
`EPOLL_CTL_ADD`, whether the container can allocate the new entry. -/
structure AddEnv where
  malloc_ok : Bool
  addr : Nat
  epoll_permit : Bool
  push_ok : Bool
  deriving DecidableEq, Repr

/-- What the environment answers during one `mainloop_init`. -/
structure InitEnv where
  registry_ok : Bool
  malloc_ok : Bool
  epoll_fd : Int
  list_ok : Bool
  push_ok : Bool
  deriving DecidableEq, Repr

/-- What the environment answers while `mainloop_run` activates the signal
watcher. -/
structure RunEnv where
  sigprocmask : Int
  signalfd : Int
  add : AddEnv
  deriving DecidableEq, Repr

/-- One return of `epoll_wait`: an error, or the ready events. -/
inductive Wait where
  | error
  | ready (events : List epoll_event)
  deriving DecidableEq, Repr

/-- A call of the public interface made from client code. -/
inductive Call where
  | ctl (c : Ctl)
  | add_fd (env : AddEnv) (fd : Int) (events : Nat) (callback : Option Nat)
      (user_data : Nat) (destroy : Option Nat)
  | modify_fd (permit : Bool) (fd : Int) (events : Nat)
  | remove_fd (fd : Int)
  deriving DecidableEq, Repr

/-- Client code: the interface calls each callback makes when invoked in a given
state, and what a read of the signal descriptor delivers.  `event f fd events
user_data` is the event callback `f`, `signal f signo user_data` the signal
callback `f`, `destroy f user_data` the cleanup callback `f`. -/
structure Client where
  event : Nat → Int → Nat → Nat → World → List Call
  signal : Nat → Nat → Nat → World → List Call
  destroy : Nat → Nat → World → List Call
  signalfd_read : World → Option Nat

/-- How a call of `mainloop_run` ends: it returns `EXIT_FAILURE` before entering
the loop (`failed`), it leaves the loop, tears the context down and returns its
exit status (`exited`, with the waits not consumed), or it stays blocked in
`epoll_wait` when the environment reports nothing more (`blocked`). -/
inductive RunResult where
  | failed (w : World)
  | exited (status : Int) (w : World) (rest : List Wait)
  | blocked (w : World)
  deriving DecidableEq, Repr

/-- How the `while` loop of `mainloop_run` ends. -/
inductive LoopResult where
  | done (w : World) (rest : List Wait)
  | blocked (w : World)
  deriving DecidableEq, Repr

/-! ## The container of `src/shared/queue.h` -/

/-- Modelled from the spec: `queue_new` of `src/shared/queue.h` (not under src/),
an empty ordered container, or NULL when it cannot be allocated. -/
def queue_new {α : Type} (ok : Bool) : Option (List α) :=
  if ok then some [] else none

/-- Modelled from the spec: `queue_push_tail` of `src/shared/queue.h` (not under
src/), push-to-tail; it fails on a NULL queue or when the entry cannot be
allocated. -/
def queue_push_tail {α : Type} (q : Option (List α)) (ok : Bool) (x : α) :
    Option (List α) × Bool :=
  match q with
  | none => (none, false)
  | some l => if ok then (some (l ++ [x]), true) else (some l, false)

/-- Modelled from the spec: `queue_find` of `src/shared/queue.h` (not under src/),
predicate-based find of the first matching entry; NULL on a NULL queue. -/
def queue_find {α : Type} (q : Option (List α)) (p : α → Bool) : Option α :=
  match q with
  | none => none
  | some l => l.find? p

/-- Modelled from the spec: `queue_remove` of `src/shared/queue.h` (not under
src/), single-item removal of the first entry holding the given pointer; `p`
recognises that pointer. -/
def queue_remove {α : Type} (q : Option (List α)) (p : α → Bool) : Option (List α) :=
  q.map (fun l => l.eraseP p)

/-- The list with its first entry accepted by `p` overwritten by `x`. -/
def replace_first {α : Type} (p : α → Bool) (x : α) : List α → List α
  | [] => []
  | a :: l => if p a then x :: l else a :: replace_first p x l

/-! ## The kernel's epoll interest sets -/

/-- Whether descriptor `fd` is in the interest set of the epoll instance `epfd`. -/
def epoll_registered (k : List epoll_item) (epfd fd : Int) : Bool :=
  k.any (fun i => i.epfd == epfd && i.fd == fd)

/-- The operations of `epoll_ctl`. -/
inductive EpollOp where
  | EPOLL_CTL_ADD
  | EPOLL_CTL_MOD
  | EPOLL_CTL_DEL
  deriving DecidableEq, Repr

/-- Modelled from the spec: `epoll_ctl`, the readiness primitive of the operating
system (not under src/).  ADD fails when the descriptor is already registered
with the instance or the kernel refuses it (`permit = false`); MOD fails when the
descriptor is not registered or the kernel refuses the new mask; DEL fails exactly
when the descriptor is not registered.  A failing call returns -1 and changes
nothing. -/
def epoll_ctl (k : List epoll_item) (permit : Bool) (epfd : Int) (op : EpollOp)
    (fd : Int) (events : Nat) (data : Nat) : List epoll_item × Int :=
  match op with
  | .EPOLL_CTL_ADD =>
    if permit && !epoll_registered k epfd fd then
      (k ++ [{ epfd := epfd, fd := fd, events := events, data := data }], 0)
    else (k, -1)
  | .EPOLL_CTL_MOD =>
    if permit && epoll_registered k epfd fd then
      (k.map (fun i => if i.epfd == epfd && i.fd == fd then
          { i with events := events, data := data } else i), 0)
    else (k, -1)
  | .EPOLL_CTL_DEL =>
    if epoll_registered k epfd fd then
      (k.filter (fun i => !(i.epfd == epfd && i.fd == fd)), 0)
    else (k, -1)

/-- Modelled from the spec: `epoll_wait` (not under src/) with room for `maxevents`
events: -1 on error, else the number of events stored and the events. -/
def epoll_wait (maxevents : Nat) (r : Wait) : Int × List epoll_event :=
  match r with
  | .error => (-1, [])
  | .ready evs => (((evs.take maxevents).length : Nat), evs.take maxevents)

/-- The state with one more event in the trace. -/
def World.emit (w : World) (e : Event) : World :=
  { w with log := w.log ++ [e] }

/-- Modelled from the spec: `close` (not under src/): the descriptor leaves every
interest set, and an epoll instance that is closed loses its interest set. -/
def close (fd : Int) (w : World) : World :=
  { w with interest := w.interest.filter (fun i => !(i.fd == fd || i.epfd == fd)),
           log := w.log ++ [Event.close fd] }

/-! ## The allocator -/

/-- An address that is not in `heap`. -/
def fresh (heap : List Nat) : Nat :=
  heap.foldr max 0 + 1

/-- Modelled from the spec: `malloc` of the C library (not under src/), when it
does not return NULL: the address of the new block is one that is not in use, the
address `addr` that the environment names, be it new or freed earlier, or another
one if `addr` is in use. -/
def malloc (addr : Nat) (heap : List Nat) : Nat :=
  if addr ∈ heap then fresh heap else addr

/-- Modelled from the spec: `free` of the C library (not under src/): the address
is no longer in use. -/
def free (addr : Nat) (w : World) : World :=
  { w with heap := w.heap.filter (fun a => a != addr) }

/-! ## The registry -/

/-- The function `match_tid`, with `pthread_equal` as equality of identities. -/
def match_tid (tid : Nat) (data : thread_data) : Bool :=
  data.tid == tid

def find_thread_data_by_tid (w : World) (tid : Nat) : Option thread_data :=
  queue_find w.threads_data (match_tid tid)

/-- A write through the pointer `tdata` returned by `find_thread_data_by_tid`: the
pointer designates the first entry that `match_tid` accepts, and that entry is
replaced. -/
def World.store (w : World) (tdata : thread_data) : World :=
  { w with threads_data :=
      w.threads_data.map (replace_first (match_tid tdata.tid) tdata) }

/-- The function `mainloop_init`.  The result is `none` when `malloc` returns NULL
for the context: the source passes the pointer to `memset` unchecked. -/
def mainloop_init (env : InitEnv) (tid : Nat) (w : World) : Option World :=
  let threads_data := match w.threads_data with
    | none => queue_new env.registry_ok
    | some l => some l
  match threads_data with
  | none => some w
  | some l =>
    let w1 := { w with threads_data := some l }
    match find_thread_data_by_tid w1 tid with
    | some _ => some w1
    | none =>
      if !env.malloc_ok then none
      else
        let tdata : thread_data :=
          { tid := tid, epoll_fd := env.epoll_fd, epoll_terminate := 0, exit_status := 0,
            mainloop_list := queue_new env.list_ok, signal_data := none }
        some { w1 with threads_data := (queue_push_tail w1.threads_data env.push_ok tdata).1 }

def mainloop_quit (tid : Nat) (w : World) : World :=
  match find_thread_data_by_tid w tid with
  | none => w
  | some tdata => (w.store { tdata with epoll_terminate := 1 }).emit (Event.ctl Ctl.quit)

def mainloop_exit_success (tid : Nat) (w : World) : World :=
  match find_thread_data_by_tid w tid with
  | none => w
  | some tdata =>
    (w.store { tdata with exit_status := EXIT_SUCCESS, epoll_terminate := 1 }).emit
      (Event.ctl Ctl.exit_success)

def mainloop_exit_failure (tid : Nat) (w : World) : World :=
  match find_thread_data_by_tid w tid with
  | none => w
  | some tdata =>
    (w.store { tdata with exit_status := EXIT_FAILURE, epoll_terminate := 1 }).emit
      (Event.ctl Ctl.exit_failure)

/-- A control call made by client code. -/
def do_ctl (tid : Nat) (c : Ctl) (w : World) : World :=
  match c with
  | .quit => mainloop_quit tid w
  | .exit_success => mainloop_exit_success tid w
  | .exit_failure => mainloop_exit_failure tid w

/-! ## Descriptor watchers -/

def match_by_fd (fd : Int) (md : mainloop_data) : Bool :=
  md.fd == fd

/-- Pointer equality with the address `p`, as `queue_find` with a NULL match
function and `queue_remove` compare. -/
def same_addr (p : Nat) (md : mainloop_data) : Bool :=
  md.addr == p

def mainloop_add_fd (env : AddEnv) (tid : Nat) (fd : Int) (events : Nat)
    (callback : Option Callback) (user_data : Nat) (destroy : Option Nat) (w : World) :
    World × Int :=
  match find_thread_data_by_tid w tid with
  | none => (w, -EINVAL)
  | some tdata =>
    if fd < 0 then (w, -EINVAL)
    else match callback with
    | none => (w, -EINVAL)
    | some cb =>
      if !env.malloc_ok then (w, -ENOMEM)
      else
        let data : mainloop_data :=
          { addr := malloc env.addr w.heap, block := w.next_block, fd := fd,
            events := events, callback := cb, destroy := destroy, user_data := user_data,
            epoll_fd := tdata.epoll_fd }
        let w1 := { w with heap := data.addr :: w.heap, next_block := w.next_block + 1 }
        let r := epoll_ctl w1.interest env.epoll_permit tdata.epoll_fd
          EpollOp.EPOLL_CTL_ADD data.fd events data.addr
        if r.2 < 0 then (free data.addr { w1 with interest := r.1 }, r.2)
        else
          let w2 := { w1 with interest := r.1 }
          let q := queue_push_tail tdata.mainloop_list env.push_ok data
          if !q.2 then
            (free data.addr { w2 with interest := (epoll_ctl w2.interest true tdata.epoll_fd
                EpollOp.EPOLL_CTL_DEL data.fd 0 0).1 }, -1)
          else
            (((w2.store { tdata with mainloop_list := q.1 }).emit
              (Event.registered data.block fd destroy user_data)), 0)

def mainloop_modify_fd (permit : Bool) (tid : Nat) (fd : Int) (events : Nat) (w : World) :
    World × Int :=
  match find_thread_data_by_tid w tid with
  | none => (w, -EINVAL)
  | some tdata =>
    if fd < 0 then (w, -EINVAL)
    else match queue_find tdata.mainloop_list (match_by_fd fd) with
    | none => (w, - ENXIO)
    | some data =>
      let r := epoll_ctl w.interest permit tdata.epoll_fd EpollOp.EPOLL_CTL_MOD data.fd
        events data.addr
      if r.2 < 0 then ({ w with interest := r.1 }, r.2)
      else
        let w1 := { w with interest := r.1 }
        ((w1.store { tdata with mainloop_list := tdata.mainloop_list.map (fun l =>
            l.map (fun e => if same_addr data.addr e then { e with events := events }
              else e)) }), 0)

/-- The function `mainloop_remove_fd`, with `destroy data` for what the call
`data->destroy(data->user_data)` guarded by `if (data->destroy)` does. -/
def remove_fd_with (destroy : mainloop_data → World → World) (tid : Nat) (fd : Int)
    (w : World) : World × Int :=
  match find_thread_data_by_tid w tid with
  | none => (w, -EINVAL)
  | some tdata =>
    if fd < 0 then (w, -EINVAL)
    else match queue_find tdata.mainloop_list (match_by_fd fd) with
    | none => (w, - ENXIO)
    | some data =>
      let w1 := w.store { tdata with
        mainloop_list := queue_remove tdata.mainloop_list (same_addr data.addr) }
      let r := epoll_ctl w1.interest true tdata.epoll_fd EpollOp.EPOLL_CTL_DEL data.fd 0 0
      let w2 := { w1 with interest := r.1 }
      (free data.addr (destroy data w2), r.2)

/-- One interface call made by client code on thread `tid`, with `destroy` for
the calls of cleanup callbacks. -/
def do_call_with (destroy : mainloop_data → World → World) (tid : Nat) (c : Call)
    (w : World) : World :=
  match c with
  | .ctl c => do_ctl tid c w
  | .add_fd env fd events callback user_data destroy_cb =>
    (mainloop_add_fd env tid fd events (callback.map Callback.user) user_data destroy_cb w).1
  | .modify_fd permit fd events => (mainloop_modify_fd permit tid fd events w).1
  | .remove_fd fd => (remove_fd_with destroy tid fd w).1

/-- The call `data->destroy(data->user_data)` guarded by `if (data->destroy)`, with
room for `depth` cleanup calls on the call stack: the cleanup callback makes its
calls in order, and the cleanup calls these make have room for one less. -/
def call_destroy : Nat → Client → Nat → mainloop_data → World → World
  | 0, _, _, data, w =>
    match data.destroy with
    | none => w
    | some f => (w.emit (Event.destroy data.block f data.user_data)).emit Event.overflow
  | depth + 1, U, tid, data, w =>
    match data.destroy with
    | none => w
    | some f =>
      let w1 := w.emit (Event.destroy data.block f data.user_data)
      (U.destroy f data.user_data w1).foldl
        (fun w c => do_call_with (call_destroy depth U tid) tid c w) w1

def mainloop_remove_fd (depth : Nat) (U : Client) (tid : Nat) (fd : Int) (w : World) :
    World × Int :=
  remove_fd_with (call_destroy depth U tid) tid fd w

/-! ## Timeouts -/

/-- The `struct itimerspec` that `timeout_set` builds, with the arithmetic of
`unsigned int` (32 bits). -/
def timeout_itimer (msec : Nat) : itimerspec :=
  let sec := msec / 1000
  { it_interval_tv_sec := 0,
    it_interval_tv_nsec := 0,
    it_value_tv_sec := sec,
    it_value_tv_nsec :=
      ((((msec + 4294967296 - (sec * 1000) % 4294967296) % 4294967296) * 1000)
        % 4294967296 * 1000) % 4294967296 }

/-- The function `timeout_set`; `r` is what `timerfd_settime` returns. -/
def timeout_set (r : Int) (fd : Int) (msec : Nat) (w : World) : World × Int :=
  (w.emit (Event.settime fd (timeout_itimer msec)), r)

def mainloop_modify_timeout (settime : Int) (permit : Bool) (tid : Nat) (id : Int)
    (msec : Nat) (w : World) : World × Int :=
  let r := if msec > 0 then timeout_set settime id msec w else (w, 0)
  if r.2 < 0 then (r.1, - EIO)
  else
    let m := mainloop_modify_fd permit tid id (EPOLLIN ||| EPOLLONESHOT) r.1
    if m.2 < 0 then (m.1, - EIO) else (m.1, 0)

def mainloop_remove_timeout (depth : Nat) (U : Client) (tid : Nat) (id : Int) (w : World) :
    World × Int :=
  mainloop_remove_fd depth U tid id w

/-! ## Signals -/

def mainloop_set_signal (malloc_ok : Bool) (tid : Nat) (mask : Option Nat)
    (callback : Option Nat) (user_data : Nat) (destroy : Option Nat) (w : World) :
    World × Int :=
  match find_thread_data_by_tid w tid with
  | none => (w, -EINVAL)
  | some tdata =>
    match mask, callback with
    | some m, some cb =>
      if !malloc_ok then (w, -ENOMEM)
      else
        let data : signal_data :=
          { fd := -1, mask := m, callback := some cb, destroy := destroy,
            user_data := user_data }
        (w.store { tdata with signal_data := some data }, 0)
    | _, _ => (w, -EINVAL)

/-! ## Client code and dispatch -/

/-- One interface call made by client code on thread `tid`. -/
def do_call (depth : Nat) (U : Client) (tid : Nat) (c : Call) (w : World) : World :=
  do_call_with (call_destroy depth U tid) tid c w

/-- The calls of a client callback, in order. -/
def run_script (depth : Nat) (U : Client) (tid : Nat) (cs : List Call) (w : World) : World :=
  cs.foldl (fun w c => do_call depth U tid c w) w

/-- The static `signal_callback`; its `user_data` points at the signal watcher of
the context. -/
def signal_callback (depth : Nat) (U : Client) (tid : Nat) (events : Nat) (w : World) :
    World :=
  if events &&& (EPOLLERR ||| EPOLLHUP) ≠ 0 then mainloop_quit tid w
  else match U.signalfd_read w with
  | none => w
  | some signo =>
    match (find_thread_data_by_tid w tid).bind (fun t => t.signal_data) with
    | none => w
    | some data =>
      match data.callback with
      | none => w
      | some f =>
        let w1 := w.emit (Event.signal f signo data.user_data)
        run_script depth U tid (U.signal f signo data.user_data w1) w1

/-- The call `data->callback(data->fd, events[n].events, data->user_data)`. -/
def call_callback (depth : Nat) (U : Client) (tid : Nat) (data : mainloop_data)
    (events : Nat) (w : World) : World :=
  let w1 := w.emit (Event.invoke data.callback data.fd events data.user_data)
  match data.callback with
  | .user f => run_script depth U tid (U.event f data.fd events data.user_data w1) w1
  | .signal_callback => signal_callback depth U tid events w1

/-- The body of the `for` loop of `mainloop_run` for one ready event: the address
reported by the kernel is looked up in the collection, and the callback of the
watcher at that address is called. -/
def dispatch_event (depth : Nat) (U : Client) (tid : Nat) (ev : epoll_event) (w : World) :
    World :=
  match (find_thread_data_by_tid w tid).bind
      (fun t => queue_find t.mainloop_list (same_addr ev.data)) with
  | none => w
  | some data => call_callback depth U tid data ev.events w

/-- The `for` loop of `mainloop_run` over the events of one wait. -/
def dispatch_batch (depth : Nat) (U : Client) (tid : Nat) (batch : List epoll_event)
    (w : World) : World :=
  batch.foldl (fun w ev => dispatch_event depth U tid ev w) w

/-- The loop condition `!tdata->epoll_terminate`, negated. -/
def terminated (tid : Nat) (w : World) : Bool :=
  match find_thread_data_by_tid w tid with
  | none => true
  | some tdata => tdata.epoll_terminate != 0

/-- The `while` loop of `mainloop_run`; `waits` is what the successive calls of
`epoll_wait` return. -/
def mainloop_loop (depth : Nat) (U : Client) (tid : Nat) : List Wait → World → LoopResult
  | [], w => if terminated tid w then .done w [] else .blocked w
  | r :: rest, w =>
    if terminated tid w then .done w (r :: rest)
    else
      let nfds := epoll_wait MAX_EPOLL_EVENTS r
      if nfds.1 < 0 then mainloop_loop depth U tid rest w
      else mainloop_loop depth U tid rest (dispatch_batch depth U tid nfds.2 w)

/-- The function `destroy_mainloop_data`. -/
def destroy_mainloop_data (depth : Nat) (U : Client) (tid : Nat) (data : mainloop_data)
    (w : World) : World :=
  let w1 := { w with interest := (epoll_ctl w.interest true data.epoll_fd
    EpollOp.EPOLL_CTL_DEL data.fd 0 0).1 }
  free data.addr (call_destroy depth U tid data w1)

/-- Modelled from the spec: `queue_destroy` of `src/shared/queue.h` (not under
src/), full destruction with per-item cleanup, called on the collection of the
context `tdata`: the items are taken out of the container, the cleanup is applied
to each of them in order, and the container is freed afterwards, with what was
pushed to it in the meantime. -/
def queue_destroy (depth : Nat) (U : Client) (tid : Nat) (tdata : thread_data) (w : World) :
    World :=
  match tdata.mainloop_list with
  | none => w
  | some l =>
    l.foldl (fun w d => destroy_mainloop_data depth U tid d w)
      (w.store { tdata with mainloop_list := some [] })

/-- The part of `mainloop_run` after the loop; `signal_data` is the local variable
of that name.  The context is in the registry until the end, so each lookup finds
it; the exit status is read after the cleanups have run. -/
def mainloop_teardown (depth : Nat) (U : Client) (tid : Nat)
    (signal_data : Option signal_data) (w : World) : World × Int :=
  let w1 := match signal_data with
    | none => w
    | some sd =>
      let w1 := close sd.fd (mainloop_remove_fd depth U tid sd.fd w).1
      match sd.destroy with
      | none => w1
      | some f =>
        let w2 := w1.emit (Event.signal_destroy f sd.user_data)
        run_script depth U tid (U.destroy f sd.user_data w2) w2
  match find_thread_data_by_tid w1 tid with
  | none => (w1, EXIT_FAILURE)
  | some tdata =>
    let w2 := queue_destroy depth U tid tdata w1
    match find_thread_data_by_tid w2 tid with
    | none => (w2, EXIT_FAILURE)
    | some tdata2 =>
      let w3 := (close tdata2.epoll_fd (w2.store { tdata2 with mainloop_list := none })).store
        { tdata2 with mainloop_list := none, epoll_fd := 0 }
      let w4 := { w3 with
        threads_data := queue_remove w3.threads_data (match_tid tid) }
      (w4, tdata2.exit_status)

/-- The part of `mainloop_run` before the loop, for a context with a signal
watcher: either the state in which `EXIT_FAILURE` is returned, or the state in
which the loop is entered. -/
def mainloop_activate (env : RunEnv) (tid : Nat) (tdata : thread_data) (sd : signal_data)
    (w : World) : World ⊕ (World × signal_data) :=
  if env.sigprocmask < 0 then .inl w
  else
    let sd1 := { sd with fd := env.signalfd }
    let w1 := w.store { tdata with signal_data := some sd1 }
    if sd1.fd < 0 then .inl w1
    else
      let a := mainloop_add_fd env.add tid sd1.fd EPOLLIN (some Callback.signal_callback) 0
        none w1
      if a.2 < 0 then .inl (close sd1.fd a.1) else .inr (a.1, sd1)

/-- The rest of `mainloop_run` once the signal watcher, if any, is active. -/
def mainloop_run_loop (depth : Nat) (U : Client) (tid : Nat)
    (signal_data : Option signal_data) (waits : List Wait) (w : World) : RunResult :=
  match find_thread_data_by_tid w tid with
  | none => .failed w
  | some tdata =>
    match mainloop_loop depth U tid waits
        (w.store { tdata with exit_status := EXIT_SUCCESS }) with
    | .blocked w3 => .blocked w3
    | .done w3 rest =>
      .exited (mainloop_teardown depth U tid signal_data w3).2
        (mainloop_teardown depth U tid signal_data w3).1 rest

def mainloop_run (depth : Nat) (U : Client) (env : RunEnv) (tid : Nat) (waits : List Wait)
    (w : World) : RunResult :=
  match find_thread_data_by_tid w tid with
  | none => .failed w
  | some tdata =>
    match tdata.signal_data with
    | none => mainloop_run_loop depth U tid none waits w
    | some sd =>
      match mainloop_activate env tid tdata sd w with
      | .inl w1 => .failed w1
      | .inr (w1, sd1) => mainloop_run_loop depth U tid (some sd1) waits w1

/-- The state in which a call of `mainloop_run` ends or stays blocked. -/
def RunResult.world (r : RunResult) : World :=
  match r with
  | .failed w => w
  | .exited _ w _ => w
  | .blocked w => w

/-- The value a call of `mainloop_run` returns, if it returns. -/
def RunResult.status (r : RunResult) : Option Int :=
  match r with
  | .failed _ => some EXIT_FAILURE
  | .exited s _ _ => some s
  | .blocked _ => none

/-! ## Sample states -/

/-- The state of a process before any call. -/
def World.initial : World :=
  { threads_data := none, interest := [], heap := [], next_block := 0, log := [] }

/-- An environment in which `mainloop_init` meets no failure. -/
def InitEnv.good (epoll_fd : Int) : InitEnv :=
  { registry_ok := true, malloc_ok := true, epoll_fd := epoll_fd, list_ok := true,
    push_ok := true }

/-- An environment in which `mainloop_add_fd` meets no failure and `malloc` is
offered address `addr`. -/
def AddEnv.at (addr : Nat) : AddEnv :=
  { malloc_ok := true, addr := addr, epoll_permit := true, push_ok := true }

/-- An environment in which `mainloop_add_fd` meets no failure. -/
def AddEnv.good : AddEnv :=
  AddEnv.at 0

/-- A fresh context for thread 1, whose epoll instance is descriptor 3. -/
def sample_tdata : thread_data :=
  { tid := 1, epoll_fd := 3, epoll_terminate := 0, exit_status := 0,
    mainloop_list := some [], signal_data := none }

/-- The state after thread 1 called `mainloop_init`. -/
def sample_world : World :=
  { threads_data := some [sample_tdata], interest := [], heap := [], next_block := 0,
    log := [] }

/-- A client whose callbacks call nothing. -/
def Client.idle : Client :=
  { event := fun _ _ _ _ _ => [], signal := fun _ _ _ _ => [],
    destroy := fun _ _ _ => [], signalfd_read := fun _ => none }

/-- A client whose cleanup callbacks call `mainloop_exit_failure`. -/
def Client.failing_cleanup : Client :=
  { event := fun _ _ _ _ _ => [], signal := fun _ _ _ _ => [],
    destroy := fun _ _ _ => [Call.ctl Ctl.exit_failure], signalfd_read := fun _ => none }

/-- A client whose cleanup callbacks call `mainloop_exit_success` and whose event
callbacks call `mainloop_exit_failure`. -/
def Client.late_success : Client :=
  { event := fun _ _ _ _ _ => [Call.ctl Ctl.exit_failure], signal := fun _ _ _ _ => [],
    destroy := fun _ _ _ => [Call.ctl Ctl.exit_success], signalfd_read := fun _ => none }

/-- A client whose event callback 0 calls `mainloop_exit_failure`; its other
callbacks call nothing. -/
def Client.failing_event : Client :=
  { event := fun f _ _ _ _ => if f = 0 then [Call.ctl Ctl.exit_failure] else [],
    signal := fun _ _ _ _ => [], destroy := fun _ _ _ => [],
    signalfd_read := fun _ => none }

/-- A client whose cleanup callback 7 registers descriptor 4 again, with event
callback 0, user data 10 and cleanup callback 8; its other callbacks call
nothing. -/
def Client.registering_cleanup : Client :=
  { event := fun _ _ _ _ _ => [], signal := fun _ _ _ _ => [],
    destroy := fun f _ _ =>
      if f = 7 then [Call.add_fd AddEnv.good 4 EPOLLIN (some 0) 10 (some 8)] else [],
    signalfd_read := fun _ => none }

/-- A client whose event callback 0 removes descriptor 5 and registers descriptor 6
with event callback 2 and user data 12, `malloc` being offered address 1; its other
callbacks call nothing. -/
def Client.reusing : Client :=
  { event := fun f _ _ _ _ =>
      if f = 0 then [Call.remove_fd 5, Call.add_fd (AddEnv.at 1) 6 EPOLLIN (some 2) 12 none]
      else [],
    signal := fun _ _ _ _ => [], destroy := fun _ _ _ => [],
    signalfd_read := fun _ => none }

/-- An environment in which the activation of a signal watcher meets no failure. -/
def RunEnv.good : RunEnv :=
  { sigprocmask := 0, signalfd := 5, add := AddEnv.good }

/-- The state after thread 1 registered descriptor 4 with callback 0, user data 9
and cleanup callback 7. -/
def sample_watched : World :=
  (mainloop_add_fd AddEnv.good 1 4 EPOLLIN (some (Callback.user 0)) 9 (some 7)
    sample_world).1

/-- The state after thread 1 registered descriptor 5 as well, with callback 1 and
no cleanup callback. -/
def sample_two : World :=
  (mainloop_add_fd AddEnv.good 1 5 EPOLLIN (some (Callback.user 1)) 11 none
    sample_watched).1

/-- How `mainloop_run` behaves after the loop, given how the loop ends. -/
def run_after (depth : Nat) (U : Client) (tid : Nat) (sdo : Option signal_data)
    (r : LoopResult) : RunResult :=
  match r with
  | .blocked x => .blocked x
  | .done x rest =>
    .exited (mainloop_teardown depth U tid sdo x).2 (mainloop_teardown depth U tid sdo x).1
      rest

/-- The states a process can be in: the initial state and what calls of the
interface by any thread make of a state that can be reached. -/
inductive Reach : World → Prop where
  | initial : Reach World.initial
  | init (env : InitEnv) (tid : Nat) (w w' : World) :
      Reach w → mainloop_init env tid w = some w' → Reach w'
  | run (depth : Nat) (U : Client) (env : RunEnv) (tid : Nat) (waits : List Wait) (w : World) :
      Reach w → Reach (mainloop_run depth U env tid waits w).world
  | call (depth : Nat) (U : Client) (tid : Nat) (c : Call) (w : World) :
      Reach w → Reach (do_call depth U tid c w)
  | set_signal (malloc_ok : Bool) (tid : Nat) (mask callback : Option Nat) (user_data : Nat)
      (destroy : Option Nat) (w : World) :
      Reach w → Reach (mainloop_set_signal malloc_ok tid mask callback user_data destroy w).1

/-! ## The calling thread's view of the state -/

/-- What one thread's operations read and write: its context, the interest sets,
the allocator and the trace. -/
structure Local where
  tdata : thread_data
  interest : List epoll_item
  heap : List Nat
  next_block : Nat
  log : List Event

/-- The state `w` with the context of the thread of `L` overwritten. -/
def World.put (w : World) (L : Local) : World :=
  { threads_data := (w.store L.tdata).threads_data, interest := L.interest,
    heap := L.heap, next_block := L.next_block, log := L.log }

/-- The view of `w` for the thread whose context is `tdata`. -/
def World.view (w : World) (tdata : thread_data) : Local :=
  { tdata := tdata, interest := w.interest, heap := w.heap, next_block := w.next_block,
    log := w.log }

/-- The view after one more event. -/
def Local.emit (L : Local) (e : Event) : Local :=
  { L with log := L.log ++ [e] }

/-- The view after the first watcher at address `p` left the collection and the
interest sets became `k`. -/
def Local.without (L : Local) (p : Nat) (k : List epoll_item) : Local :=
  { L with
    tdata := { L.tdata with
      mainloop_list := queue_remove L.tdata.mainloop_list (same_addr p) },
    interest := k }

/-- The view after `free` of the address `p`. -/
def Local.free (L : Local) (p : Nat) : Local :=
  { L with heap := L.heap.filter (fun a => a != p) }

/-- The effect of a control operation on the context. -/
def Ctl.apply (c : Ctl) (t : thread_data) : thread_data :=
  match c with
  | .quit => { t with epoll_terminate := 1 }
  | .exit_success => { t with exit_status := EXIT_SUCCESS, epoll_terminate := 1 }
  | .exit_failure => { t with exit_status := EXIT_FAILURE, epoll_terminate := 1 }

/-- Thread identities of the registry, in order. -/
def World.tids (w : World) : List Nat :=
  match w.threads_data with
  | none => []
  | some l => l.map (fun t => t.tid)

/-! ## Reading the trace -/

/-- The exit status after the control calls of a trace, starting from `s`. -/
def exit_after (s : Int) (new : List Event) : Int :=
  new.foldl (fun s e =>
    match e with
    | .ctl .exit_success => EXIT_SUCCESS
    | .ctl .exit_failure => EXIT_FAILURE
    | _ => s) s

/-- The termination flag after the control calls of a trace, starting from `t`. -/
def terminate_after (t : Int) (new : List Event) : Int :=
  new.foldl (fun t e =>
    match e with
    | .ctl _ => 1
    | _ => t) t

/-- The watchers registered with a cleanup callback, as allocation number, callback
and user data, in order of registration. -/
def owed (lg : List Event) : List (Nat × Nat × Nat) :=
  lg.filterMap (fun e =>
    match e with
    | .registered b _ (some f) ud => some (b, f, ud)
    | _ => none)

/-- The allocation numbers of all watchers registered. -/
def registered_blocks (lg : List Event) : List Nat :=
  lg.filterMap (fun e =>
    match e with
    | .registered b _ _ _ => some b
    | _ => none)

/-- The descriptors of all watchers registered. -/
def registered_fds (lg : List Event) : List Int :=
  lg.filterMap (fun e =>
    match e with
    | .registered _ fd _ _ => some fd
    | _ => none)

/-- The cleanup invocations of a trace, as allocation number, callback and user
data. -/
def destroyed (lg : List Event) : List (Nat × Nat × Nat) :=
  lg.filterMap (fun e =>
    match e with
    | .destroy b f ud => some (b, f, ud)
    | _ => none)

/-- The cleanup a watcher still has coming, if it has a cleanup callback. -/
def pending_one (d : mainloop_data) : Option (Nat × Nat × Nat) :=
  d.destroy.map (fun f => (d.block, f, d.user_data))

/-- The cleanups the watchers of a collection still have coming. -/
def pending (l : List mainloop_data) : List (Nat × Nat × Nat) :=
  l.filterMap pending_one

/-- The watchers of a context. -/
def live (t : thread_data) : List mainloop_data :=
  match t.mainloop_list with
  | none => []
  | some l => l

/-- The number of times `x` occurs in `l`. -/
def times (x : Nat × Nat × Nat) (l : List (Nat × Nat × Nat)) : Nat :=
  (l.filter (fun y => decide (y = x))).length

/-- The books balance.  The watchers registered with a cleanup callback are those
already cleaned up, those still in the collection of the thread, and `base`: the
watchers of the contexts of other threads and those taken out of the collection
whose cleanup has not started.  Allocation numbers are handed out once, and those
of the watchers in the collection are at least `lo`.  The watchers in the
collection lie at different addresses, which are in use, as are the addresses
`held` of the watchers taken out of the collection and not freed yet. -/
structure Accounted (base : List (Nat × Nat × Nat)) (held : List Nat) (lo : Nat)
    (L : Local) : Prop where
  live_ge : ∀ d ∈ live L.tdata, lo ≤ d.block
  lo_le : lo ≤ L.next_block
  reg_lt : ∀ b ∈ registered_blocks L.log, b < L.next_block
  reg_nodup : (registered_blocks L.log).Nodup
  perm : (owed L.log).Perm (destroyed L.log ++ pending (live L.tdata) ++ base)
  addr_nodup : ((live L.tdata).map (fun d => d.addr)).Nodup
  addr_heap : ∀ d ∈ live L.tdata, d.addr ∈ L.heap
  held_nodup : held.Nodup
  held_heap : ∀ a ∈ held, a ∈ L.heap
  held_live : ∀ d ∈ live L.tdata, d.addr ∉ held

/-- What every operation of a thread keeps of its view: the identity, the epoll
instance and the signal watcher of the context; the trace only grows, the exit
status and termination flag follow the control calls recorded, and a descriptor
that has a watcher had one before or was registered meanwhile. -/
structure Frame (L L' : Local) : Prop where
  tid : L'.tdata.tid = L.tdata.tid
  epoll_fd : L'.tdata.epoll_fd = L.tdata.epoll_fd
  signal_data : L'.tdata.signal_data = L.tdata.signal_data
  log : ∃ new, L'.log = L.log ++ new ∧
    L'.tdata.exit_status = exit_after L.tdata.exit_status new ∧
    L'.tdata.epoll_terminate = terminate_after L.tdata.epoll_terminate new ∧
    ∀ d ∈ live L'.tdata,
      d.fd ∈ (live L.tdata).map (fun d => d.fd) ∨ d.fd ∈ registered_fds new

/-- A step that keeps the frame and the books. -/
def Rel (L L' : Local) : Prop :=
  Frame L L' ∧ ∀ base held lo, Accounted base held lo L → Accounted base held lo L'

/-- An operation of thread `tid` acts on the view of that thread only, keeping the
frame and the books. -/
def Lifts (tid : Nat) (f : World → World) : Prop :=
  ∀ (w : World) (L : Local), (find_thread_data_by_tid w tid).isSome → L.tdata.tid = tid →
    ∃ L', f (w.put L) = w.put L' ∧ Rel L L'

/-- The callback invocations of a trace. -/
def invocations (lg : List Event) : List Event :=
  lg.filter (fun e =>
    match e with
    | .invoke _ _ _ _ => true
    | .signal _ _ _ => true
    | _ => false)

/-- An operation that lifts and invokes no callback of the dispatch. -/
def QLifts (tid : Nat) (f : World → World) : Prop :=
  ∀ (w : World) (L : Local), (find_thread_data_by_tid w tid).isSome → L.tdata.tid = tid →
    ∃ L', f (w.put L) = w.put L' ∧ Rel L L' ∧ invocations L'.log = invocations L.log

/-- What the call of the cleanup callback of a watcher taken out of the collection
does, seen from the thread: it acts on the view of the thread, keeps the frame,
invokes no callback of the dispatch, records the cleanup first if the watcher has a
cleanup callback, and settles the cleanup of that watcher in the books. -/
def Cleans (tid : Nat) (D : mainloop_data → World → World) : Prop :=
  ∀ (data : mainloop_data) (w : World) (L : Local),
    (find_thread_data_by_tid w tid).isSome → L.tdata.tid = tid →
    ∃ L', D data (w.put L) = w.put L' ∧ Frame L L' ∧
      invocations L'.log = invocations L.log ∧
      (∀ f, data.destroy = some f →
        ∃ tail, L'.log = L.log ++ Event.destroy data.block f data.user_data :: tail) ∧
      ∀ base held lo, Accounted ((pending_one data).toList ++ base) held lo L →
        Accounted base held lo L'

/-! ## Basic facts about the registry -/

@[simp] theorem emit_threads_data (w : World) (e : Event) :
    (w.emit e).threads_data = w.threads_data := rfl

@[simp] theorem emit_interest (w : World) (e : Event) :
    (w.emit e).interest = w.interest := rfl

@[simp] theorem emit_heap (w : World) (e : Event) : (w.emit e).heap = w.heap := rfl

@[simp] theorem emit_next_block (w : World) (e : Event) :
    (w.emit e).next_block = w.next_block := rfl

@[simp] theorem emit_log (w : World) (e : Event) : (w.emit e).log = w.log ++ [e] := rfl

@[simp] theorem store_interest (w : World) (t : thread_data) :
    (w.store t).interest = w.interest := rfl

@[simp] theorem store_heap (w : World) (t : thread_data) : (w.store t).heap = w.heap := rfl

@[simp] theorem store_next_block (w : World) (t : thread_data) :
    (w.store t).next_block = w.next_block := rfl

@[simp] theorem store_log (w : World) (t : thread_data) : (w.store t).log = w.log := rfl

theorem find_congr {w w' : World} (h : w'.threads_data = w.threads_data) (tid : Nat) :
    find_thread_data_by_tid w' tid = find_thread_data_by_tid w tid := by
  simp [find_thread_data_by_tid, h]

@[simp] theorem find_emit (w : World) (e : Event) (tid : Nat) :
    find_thread_data_by_tid (w.emit e) tid = find_thread_data_by_tid w tid := rfl

@[simp] theorem find_free (w : World) (p : Nat) (tid : Nat) :
    find_thread_data_by_tid (free p w) tid = find_thread_data_by_tid w tid := rfl

theorem find_tid {w : World} {tid : Nat} {t : thread_data}
    (h : find_thread_data_by_tid w tid = some t) : t.tid = tid := by
  unfold find_thread_data_by_tid queue_find at h
  cases hq : w.threads_data with
  | none => simp [hq] at h
  | some l =>
    simp only [hq] at h
    have := List.find?_some h
    simpa [match_tid] using this

theorem find_replace_first_self (t : thread_data) (l : List thread_data)
    (h : (l.find? (match_tid t.tid)).isSome) :
    (replace_first (match_tid t.tid) t l).find? (match_tid t.tid) = some t := by
  induction l with
  | nil => simp at h
  | cons a l ih =>
    by_cases ha : match_tid t.tid a = true
    · have ht : match_tid t.tid t = true := by simp [match_tid]
      simp only [replace_first, ha, if_true, List.find?, ht]
    · simp only [Bool.not_eq_true] at ha
      simp only [List.find?, ha] at h
      simp only [replace_first, ha, List.find?, ih h]

theorem replace_first_map_tid (t : thread_data) (l : List thread_data) :
    (replace_first (match_tid t.tid) t l).map (fun x => x.tid) = l.map (fun x => x.tid) := by
  induction l with
  | nil => simp [replace_first]
  | cons a l ih =>
    by_cases ha : match_tid t.tid a = true
    · have : a.tid = t.tid := by simpa [match_tid] using ha
      simp [replace_first, ha, this]
    · simp only [Bool.not_eq_true] at ha
      simp [replace_first, ha, ih]

theorem find_store_self {w : World} {t t0 : thread_data}
    (h : find_thread_data_by_tid w t.tid = some t0) :
    find_thread_data_by_tid (w.store t) t.tid = some t := by
  unfold find_thread_data_by_tid queue_find World.store at *
  cases hq : w.threads_data with
  | none => simp [hq] at h
  | some l =>
    simp only [hq] at h
    simp only [Option.map_some']
    exact find_replace_first_self t l (by simp [h])

theorem replace_first_of_find {α : Type} (p : α → Bool) (x : α) (l : List α)
    (h : l.find? p = some x) : replace_first p x l = l := by
  induction l with
  | nil => simp at h
  | cons a l ih =>
    by_cases ha : p a = true
    · simp only [List.find?, ha] at h
      simp only [replace_first, ha, if_true]
      injection h with h
      rw [h]
    · simp only [Bool.not_eq_true] at ha
      simp only [List.find?, ha] at h
      simp only [replace_first, ha, ih h]
      simp

theorem replace_first_twice (t t' : thread_data) (h : t'.tid = t.tid)
    (l : List thread_data) :
    replace_first (match_tid t'.tid) t' (replace_first (match_tid t.tid) t l) =
      replace_first (match_tid t'.tid) t' l := by
  induction l with
  | nil => simp [replace_first]
  | cons a l ih =>
    rw [h] at ih ⊢
    by_cases ha : match_tid t.tid a = true
    · have ht : match_tid t.tid t = true := by simp [match_tid]
      simp only [replace_first, ha, if_true, ht]
    · simp only [Bool.not_eq_true] at ha
      simp only [replace_first, ha, ih]
      simp

@[simp] theorem put_interest (w : World) (L : Local) : (w.put L).interest = L.interest := rfl

@[simp] theorem put_heap (w : World) (L : Local) : (w.put L).heap = L.heap := rfl

@[simp] theorem put_next_block (w : World) (L : Local) :
    (w.put L).next_block = L.next_block := rfl

@[simp] theorem put_log (w : World) (L : Local) : (w.put L).log = L.log := rfl

theorem put_view {w : World} {tid : Nat} {t : thread_data}
    (h : find_thread_data_by_tid w tid = some t) : w.put (w.view t) = w := by
  have ht := find_tid h
  unfold find_thread_data_by_tid queue_find at h
  cases w with
  | mk td k hp n lg =>
    cases td with
    | none => rfl
    | some l =>
      simp only at h
      simp only [World.put, World.view, World.store, Option.map_some']
      rw [ht, replace_first_of_find _ _ _ h]

theorem find_put {w : World} {L : Local}
    (h : (find_thread_data_by_tid w L.tdata.tid).isSome) :
    find_thread_data_by_tid (w.put L) L.tdata.tid = some L.tdata := by
  obtain ⟨t0, h0⟩ := Option.isSome_iff_exists.mp h
  have := find_store_self (t := L.tdata) h0
  rw [← this]
  exact find_congr rfl _

theorem find_put_tid {w : World} {L : Local} {tid : Nat}
    (hw : (find_thread_data_by_tid w tid).isSome) (hL : L.tdata.tid = tid) :
    find_thread_data_by_tid (w.put L) tid = some L.tdata := by
  subst hL
  exact find_put hw

theorem put_put (w : World) (L L' : Local) (h : L'.tdata.tid = L.tdata.tid) :
    (w.put L).put L' = w.put L' := by
  simp only [World.put, World.store]
  cases w.threads_data with
  | none => rfl
  | some l =>
    simp only [Option.map_some']
    rw [replace_first_twice _ _ h]

theorem store_put (w : World) (L : Local) (t : thread_data) (h : t.tid = L.tdata.tid) :
    (w.put L).store t = w.put { L with tdata := t } := by
  have := put_put w L { L with tdata := t } h
  rw [← this]
  rfl

theorem emit_put (w : World) (L : Local) (e : Event) :
    (w.put L).emit e = w.put { L with log := L.log ++ [e] } := rfl

theorem free_put (w : World) (L : Local) (p : Nat) :
    free p (w.put L) = w.put (L.free p) := rfl

theorem put_with (w : World) (L : Local) (k : List epoll_item) (hp : List Nat) (n : Nat)
    (lg : List Event) :
    ({ threads_data := (w.put L).threads_data, interest := k, heap := hp, next_block := n,
       log := lg } : World) =
      w.put { tdata := L.tdata, interest := k, heap := hp, next_block := n, log := lg } := rfl

theorem tids_put (w : World) (L : Local) : (w.put L).tids = w.tids := by
  simp only [World.tids, World.put, World.store]
  cases w.threads_data with
  | none => rfl
  | some l =>
    simp only [Option.map_some']
    exact replace_first_map_tid _ _

theorem put_isSome {w : World} {L : Local} {tid : Nat}
    (hw : (find_thread_data_by_tid w tid).isSome) (hL : L.tdata.tid = tid) :
    (find_thread_data_by_tid (w.put L) tid).isSome := by
  rw [find_put_tid hw hL]; rfl

/-! ## The allocator -/

theorem le_foldr_max (heap : List Nat) (a : Nat) (h : a ∈ heap) : a ≤ heap.foldr max 0 := by
  induction heap with
  | nil => cases h
  | cons b l ih =>
    simp only [List.foldr]
    rcases List.mem_cons.mp h with h | h
    · rw [h]; exact le_max_left _ _
    · exact le_trans (ih h) (le_max_right _ _)

theorem fresh_not_mem (heap : List Nat) : fresh heap ∉ heap := by
  intro h
  have := le_foldr_max heap _ h
  unfold fresh at this
  omega

theorem malloc_not_mem (addr : Nat) (heap : List Nat) : malloc addr heap ∉ heap := by
  unfold malloc
  by_cases h : addr ∈ heap
  · rw [if_pos h]; exact fresh_not_mem heap
  · rw [if_neg h]; exact h

theorem filter_ne_cons_self (p : Nat) (heap : List Nat) (h : p ∉ heap) :
    (p :: heap).filter (fun a => a != p) = heap := by
  simp only [List.filter_cons, bne_self_eq_false, Bool.false_eq_true, if_false]
  apply List.filter_eq_self.mpr
  intro a ha
  simp only [bne_iff_ne, ne_eq]
  intro hap
  exact h (hap ▸ ha)

theorem mem_filter_ne {p a : Nat} {heap : List Nat} :
    a ∈ heap.filter (fun a => a != p) ↔ a ∈ heap ∧ a ≠ p := by
  simp [List.mem_filter]

/-! ## Control calls on the calling thread's view -/

theorem do_ctl_put (w : World) (L : Local) (tid : Nat) (c : Ctl)
    (hw : (find_thread_data_by_tid w tid).isSome) (hL : L.tdata.tid = tid) :
    do_ctl tid c (w.put L) =
      w.put { L with tdata := c.apply L.tdata, log := L.log ++ [Event.ctl c] } := by
  subst hL
  cases c <;>
    simp only [do_ctl, mainloop_quit, mainloop_exit_success, mainloop_exit_failure,
      find_put hw, store_put, emit_put] <;> rfl

theorem ctl_apply_tid (c : Ctl) (t : thread_data) : (c.apply t).tid = t.tid := by
  cases c <;> rfl

theorem ctl_apply_mainloop_list (c : Ctl) (t : thread_data) :
    (c.apply t).mainloop_list = t.mainloop_list := by
  cases c <;> rfl

theorem ctl_apply_epoll_fd (c : Ctl) (t : thread_data) :
    (c.apply t).epoll_fd = t.epoll_fd := by
  cases c <;> rfl

theorem ctl_apply_signal_data (c : Ctl) (t : thread_data) :
    (c.apply t).signal_data = t.signal_data := by
  cases c <;> rfl

theorem ctl_apply_live (c : Ctl) (t : thread_data) : live (c.apply t) = live t := by
  simp only [live, ctl_apply_mainloop_list]

/-! ## Frames -/

theorem exit_after_append (s : Int) (a b : List Event) :
    exit_after s (a ++ b) = exit_after (exit_after s a) b := by
  simp [exit_after, List.foldl_append]

theorem terminate_after_append (t : Int) (a b : List Event) :
    terminate_after t (a ++ b) = terminate_after (terminate_after t a) b := by
  simp [terminate_after, List.foldl_append]

theorem owed_append (a b : List Event) : owed (a ++ b) = owed a ++ owed b := by
  simp [owed, List.filterMap_append]

theorem registered_blocks_append (a b : List Event) :
    registered_blocks (a ++ b) = registered_blocks a ++ registered_blocks b := by
  simp [registered_blocks, List.filterMap_append]

theorem registered_fds_append (a b : List Event) :
    registered_fds (a ++ b) = registered_fds a ++ registered_fds b := by
  simp [registered_fds, List.filterMap_append]

theorem destroyed_append (a b : List Event) :
    destroyed (a ++ b) = destroyed a ++ destroyed b := by
  simp [destroyed, List.filterMap_append]

theorem invocations_append (a b : List Event) :
    invocations (a ++ b) = invocations a ++ invocations b := by
  simp [invocations, List.filter_append]

/-- A step that leaves the context and the trace alone. -/
theorem frame_of_eq (L L' : Local) (ht : L'.tdata = L.tdata) (hg : L'.log = L.log) :
    Frame L L' := by
  refine ⟨by rw [ht], by rw [ht], by rw [ht], [], by simp [hg], by rw [ht]; rfl,
    by rw [ht]; rfl, fun d hd => Or.inl ?_⟩
  rw [ht] at hd
  exact List.mem_map_of_mem _ hd

theorem frame_refl (L : Local) : Frame L L := frame_of_eq L L rfl rfl

theorem frame_trans {L L' L'' : Local} (h : Frame L L') (h' : Frame L' L'') : Frame L L'' := by
  obtain ⟨n1, e1, s1, t1, f1⟩ := h.log
  obtain ⟨n2, e2, s2, t2, f2⟩ := h'.log
  refine ⟨h'.tid.trans h.tid, h'.epoll_fd.trans h.epoll_fd,
    h'.signal_data.trans h.signal_data, n1 ++ n2, ?_, ?_, ?_, ?_⟩
  · rw [e2, e1, List.append_assoc]
  · rw [s2, s1, exit_after_append]
  · rw [t2, t1, terminate_after_append]
  · intro d hd
    rw [registered_fds_append, List.mem_append]
    rcases f2 d hd with h2 | h2
    · obtain ⟨d1, hd1, hfd⟩ := List.mem_map.mp h2
      rcases f1 d1 hd1 with h1 | h1
      · left; rw [← hfd]; exact h1
      · right; left; rw [← hfd]; exact h1
    · right; right; exact h2

theorem rel_refl (L : Local) : Rel L L := ⟨frame_refl L, fun _ _ _ a => a⟩

theorem rel_trans {L L' L'' : Local} (h : Rel L L') (h' : Rel L' L'') : Rel L L'' :=
  ⟨frame_trans h.1 h'.1, fun base held lo a => h'.2 base held lo (h.2 base held lo a)⟩

/-- The books depend on the collection, the addresses in use, the allocation count
and the trace only. -/
theorem accounted_of_live (base : List (Nat × Nat × Nat)) (held : List Nat) (lo : Nat)
    (L L' : Local) (hl : L'.tdata.mainloop_list = L.tdata.mainloop_list)
    (hh : L'.heap = L.heap) (hn : L.next_block ≤ L'.next_block) (hg : L'.log = L.log)
    (a : Accounted base held lo L) : Accounted base held lo L' := by
  have hlive : live L'.tdata = live L.tdata := by simp only [live, hl]
  exact ⟨by rw [hlive]; exact a.live_ge, le_trans a.lo_le hn,
    by rw [hg]; exact fun b hb => lt_of_lt_of_le (a.reg_lt b hb) hn,
    by rw [hg]; exact a.reg_nodup, by rw [hg, hlive]; exact a.perm,
    by rw [hlive]; exact a.addr_nodup, by rw [hlive, hh]; exact a.addr_heap,
    a.held_nodup, by rw [hh]; exact a.held_heap, by rw [hlive]; exact a.held_live⟩

/-- A step that only touches the interest sets and uses up allocation numbers. -/
theorem rel_of_kernel (L : Local) (k : List epoll_item) (n : Nat) (hn : L.next_block ≤ n) :
    Rel L { L with interest := k, next_block := n } :=
  ⟨frame_of_eq L _ rfl rfl, fun base held lo a =>
    accounted_of_live base held lo L _ rfl rfl hn rfl a⟩

/-- Events that are neither registrations nor cleanups leave the books alone. -/
theorem accounted_of_log (base : List (Nat × Nat × Nat)) (held : List Nat) (lo : Nat)
    (L : Local) (new : List Event) (hr : registered_blocks new = []) (ho : owed new = [])
    (hd : destroyed new = []) (a : Accounted base held lo L) :
    Accounted base held lo { L with log := L.log ++ new } := by
  refine ⟨a.live_ge, a.lo_le, ?_, ?_, ?_, a.addr_nodup, a.addr_heap, a.held_nodup,
    a.held_heap, a.held_live⟩
  · simp only [registered_blocks_append, hr, List.append_nil]
    exact a.reg_lt
  · simp only [registered_blocks_append, hr, List.append_nil]
    exact a.reg_nodup
  · simp only [owed_append, ho, destroyed_append, hd, List.append_nil]
    exact a.perm

/-- An event that is neither a control call, nor a registration, nor a cleanup
keeps the frame and the books. -/
theorem rel_of_emit (L : Local) (e : Event)
    (h1 : ∀ c, e ≠ Event.ctl c) (h2 : ∀ b fd f ud, e ≠ Event.registered b fd f ud)
    (h3 : ∀ b f ud, e ≠ Event.destroy b f ud) :
    Rel L { L with log := L.log ++ [e] } := by
  have hs : ∀ s, exit_after s [e] = s := by
    intro s
    cases e <;> first | rfl | exact absurd rfl (h1 _)
  have ht : ∀ s, terminate_after s [e] = s := by
    intro s
    cases e <;> first | rfl | exact absurd rfl (h1 _)
  have ho : owed [e] = [] := by
    cases e <;> first | rfl | exact absurd rfl (h2 _ _ _ _)
  have hr : registered_blocks [e] = [] := by
    cases e <;> first | rfl | exact absurd rfl (h2 _ _ _ _)
  have hd : destroyed [e] = [] := by
    cases e <;> first | rfl | exact absurd rfl (h3 _ _ _)
  exact ⟨⟨rfl, rfl, rfl, [e], rfl, (hs _).symm, (ht _).symm,
    fun d hd => Or.inl (List.mem_map_of_mem _ hd)⟩, fun base held lo a =>
    accounted_of_log base held lo L [e] hr ho hd a⟩

/-- A control call keeps the frame and the books. -/
theorem rel_of_ctl (L : Local) (c : Ctl) :
    Rel L { L with tdata := c.apply L.tdata, log := L.log ++ [Event.ctl c] } := by
  refine ⟨⟨ctl_apply_tid _ _, ctl_apply_epoll_fd _ _, ctl_apply_signal_data _ _,
    [Event.ctl c], rfl, by cases c <;> rfl, by cases c <;> rfl, fun d hd => Or.inl ?_⟩,
    fun base held lo a => ?_⟩
  · simp only [ctl_apply_live] at hd
    exact List.mem_map_of_mem _ hd
  · have a1 := accounted_of_live base held lo L { L with tdata := c.apply L.tdata }
      (ctl_apply_mainloop_list c L.tdata) rfl (le_refl _) rfl a
    exact accounted_of_log base held lo { L with tdata := c.apply L.tdata } [Event.ctl c]
      rfl rfl rfl a1

/-! ## The kernel model -/

theorem epoll_ctl_fail (k : List epoll_item) (permit : Bool) (epfd : Int) (op : EpollOp)
    (fd : Int) (events data : Nat) (h : (epoll_ctl k permit epfd op fd events data).2 < 0) :
    (epoll_ctl k permit epfd op fd events data).1 = k := by
  unfold epoll_ctl at *
  cases op <;> simp only at h ⊢ <;> split <;> simp_all

theorem epoll_ctl_ret (k : List epoll_item) (permit : Bool) (epfd : Int) (op : EpollOp)
    (fd : Int) (events data : Nat) :
    (epoll_ctl k permit epfd op fd events data).2 = 0 ∨
      (epoll_ctl k permit epfd op fd events data).2 = -1 := by
  unfold epoll_ctl
  cases op <;> simp only <;> split <;> simp

theorem epoll_add_del (k : List epoll_item) (permit : Bool) (epfd fd : Int)
    (events data : Nat)
    (h : ¬ (epoll_ctl k permit epfd EpollOp.EPOLL_CTL_ADD fd events data).2 < 0) :
    (epoll_ctl (epoll_ctl k permit epfd EpollOp.EPOLL_CTL_ADD fd events data).1 true epfd
      EpollOp.EPOLL_CTL_DEL fd 0 0).1 = k := by
  unfold epoll_ctl at *
  simp only at h ⊢
  by_cases hc : (permit && !epoll_registered k epfd fd) = true
  · simp only [hc, if_true]
    have hreg : epoll_registered k epfd fd = false := by
      simp only [Bool.and_eq_true, Bool.not_eq_true', Bool.not_eq_eq_eq_not] at hc
      simpa using hc.2
    have hreg2 : epoll_registered
        (k ++ [{ epfd := epfd, fd := fd, events := events, data := data }]) epfd fd = true := by
      simp [epoll_registered]
    simp only [hreg2, if_true]
    simp only [epoll_registered, List.any_eq_false] at hreg
    rw [List.filter_append]
    have : k.filter (fun i => !(i.epfd == epfd && i.fd == fd)) = k := by
      apply List.filter_eq_self.mpr
      intro a ha
      have := hreg a ha
      simp only [Bool.not_eq_true] at this
      simp [this]
    rw [this]
    simp
  · simp [hc] at h

theorem epoll_add_ok {k : List epoll_item} {permit : Bool} {epfd fd : Int}
    {events data : Nat}
    (h : (epoll_ctl k permit epfd EpollOp.EPOLL_CTL_ADD fd events data).2 = 0) :
    permit = true ∧ epoll_registered k epfd fd = false := by
  unfold epoll_ctl at h
  simp only at h
  by_cases hc : (permit && !epoll_registered k epfd fd) = true
  · simpa using hc
  · simp [hc] at h

/-- The watcher that `mainloop_add_fd` builds. -/
theorem add_fd_put_ok (w : World) (L : Local) (tid : Nat) (env : AddEnv) (fd : Int)
    (events : Nat) (cb : Callback) (user_data : Nat) (destroy : Option Nat)
    (l : List mainloop_data)
    (hw : (find_thread_data_by_tid w tid).isSome) (hL : L.tdata.tid = tid)
    (hfd : 0 ≤ fd) (hm : env.malloc_ok = true) (hp : env.epoll_permit = true)
    (hreg : epoll_registered L.interest L.tdata.epoll_fd fd = false)
    (hpush : env.push_ok = true) (hl : L.tdata.mainloop_list = some l) :
    mainloop_add_fd env tid fd events (some cb) user_data destroy (w.put L) =
      (w.put
        { tdata := { L.tdata with mainloop_list := some (l ++
            [{ addr := malloc env.addr L.heap, block := L.next_block, fd := fd,
               events := events, callback := cb, destroy := destroy,
               user_data := user_data, epoll_fd := L.tdata.epoll_fd }]) },
          interest := L.interest ++
            [{ epfd := L.tdata.epoll_fd, fd := fd, events := events,
               data := malloc env.addr L.heap }],
          heap := malloc env.addr L.heap :: L.heap,
          next_block := L.next_block + 1,
          log := L.log ++ [Event.registered L.next_block fd destroy user_data] }, 0) := by
  subst hL
  have hnot : ¬ fd < 0 := not_lt.mpr hfd
  unfold mainloop_add_fd
  simp only [find_put hw, hnot, if_false, hm, Bool.not_true, Bool.false_eq_true,
    put_interest, put_next_block, put_heap, epoll_ctl, hp, hreg, Bool.not_false,
    Bool.and_self, if_true, lt_self_iff_false, queue_push_tail, hl, hpush]
  simp only [put_with, store_put, emit_put, put_log]

/-- The two ways `mainloop_add_fd` ends on an initialized thread: it fails with a
negative value and leaves the view as it was but for allocation numbers used up, or
all steps succeed and it returns 0. -/
theorem add_fd_put_cases (w : World) (L : Local) (tid : Nat) (env : AddEnv) (fd : Int)
    (events : Nat) (cb : Option Callback) (user_data : Nat) (destroy : Option Nat)
    (hw : (find_thread_data_by_tid w tid).isSome) (hL : L.tdata.tid = tid) :
    (∃ n r, L.next_block ≤ n ∧ r < 0 ∧
      mainloop_add_fd env tid fd events cb user_data destroy (w.put L) =
        (w.put { L with next_block := n }, r)) ∨
    (∃ l c, L.tdata.mainloop_list = some l ∧
      mainloop_add_fd env tid fd events cb user_data destroy (w.put L) =
        (w.put
          { tdata := { L.tdata with mainloop_list := some (l ++
              [mainloop_data.mk (malloc env.addr L.heap) L.next_block fd events c destroy
                user_data L.tdata.epoll_fd]) },
            interest := L.interest ++
              [epoll_item.mk L.tdata.epoll_fd fd events (malloc env.addr L.heap)],
            heap := malloc env.addr L.heap :: L.heap,
            next_block := L.next_block + 1,
            log := L.log ++ [Event.registered L.next_block fd destroy user_data] }, 0)) := by
  have hheap : (malloc env.addr L.heap :: L.heap).filter
      (fun a => a != malloc env.addr L.heap) = L.heap :=
    filter_ne_cons_self _ _ (malloc_not_mem _ _)
  by_cases hfd : fd < 0
  · left
    refine ⟨L.next_block, -EINVAL, le_refl _, by decide, ?_⟩
    subst hL
    simp only [mainloop_add_fd, find_put hw, hfd, if_true]
  cases cb with
  | none =>
    left
    refine ⟨L.next_block, -EINVAL, le_refl _, by decide, ?_⟩
    subst hL
    simp only [mainloop_add_fd, find_put hw, hfd, if_false]
  | some c =>
    by_cases hm : env.malloc_ok = true
    · by_cases he : (epoll_ctl L.interest env.epoll_permit L.tdata.epoll_fd
          EpollOp.EPOLL_CTL_ADD fd events (malloc env.addr L.heap)).2 < 0
      · left
        refine ⟨L.next_block + 1, _, Nat.le_succ _, he, ?_⟩
        subst hL
        simp only [mainloop_add_fd, find_put hw, hfd, if_false, hm, Bool.not_true,
          Bool.false_eq_true, put_interest, put_next_block, put_heap, he, if_true]
        rw [epoll_ctl_fail _ _ _ _ _ _ _ he]
        simp only [free, hheap]
        rfl
      · cases hl : L.tdata.mainloop_list with
        | none =>
          left
          refine ⟨L.next_block + 1, -1, Nat.le_succ _, by decide, ?_⟩
          subst hL
          simp only [mainloop_add_fd, find_put hw, hfd, if_false, hm, Bool.not_true,
            Bool.false_eq_true, put_interest, put_next_block, put_heap, he, hl,
            queue_push_tail, Bool.not_false, if_true]
          rw [epoll_add_del _ _ _ _ _ _ he]
          simp only [free, hheap]
          rfl
        | some l =>
          by_cases hp : env.push_ok = true
          · right
            have := epoll_ctl_ret L.interest env.epoll_permit L.tdata.epoll_fd
              EpollOp.EPOLL_CTL_ADD fd events (malloc env.addr L.heap)
            have h0 : (epoll_ctl L.interest env.epoll_permit L.tdata.epoll_fd
                EpollOp.EPOLL_CTL_ADD fd events (malloc env.addr L.heap)).2 = 0 := by
              rcases this with h | h
              · exact h
              · rw [h] at he; exact absurd (by decide) he
            obtain ⟨hperm, hreg⟩ := epoll_add_ok h0
            exact ⟨l, c, rfl, add_fd_put_ok w L tid env fd events c user_data destroy l hw hL
              (not_lt.mp hfd) hm hperm hreg hp hl⟩
          · left
            refine ⟨L.next_block + 1, -1, Nat.le_succ _, by decide, ?_⟩
            subst hL
            simp only [Bool.not_eq_true] at hp
            simp only [mainloop_add_fd, find_put hw, hfd, if_false, hm, Bool.not_true,
              Bool.false_eq_true, put_interest, put_next_block, put_heap, he, hl,
              queue_push_tail, hp, Bool.not_false, if_true]
            rw [epoll_add_del _ _ _ _ _ _ he]
            simp only [free, hheap]
            rfl
    · left
      refine ⟨L.next_block, -ENOMEM, le_refl _, by decide, ?_⟩
      subst hL
      simp only [Bool.not_eq_true] at hm
      simp only [mainloop_add_fd, find_put hw, hfd, if_false, hm, Bool.not_false, if_true]

theorem pending_append (a b : List mainloop_data) :
    pending (a ++ b) = pending a ++ pending b := by
  simp [pending, List.filterMap_append]

theorem pending_cons (a : mainloop_data) (l : List mainloop_data) :
    pending (a :: l) = (pending_one a).toList ++ pending l := by
  simp only [pending, List.filterMap_cons]
  cases pending_one a <;> rfl

/-- A watcher entering the collection at an address that was not in use keeps the
books. -/
theorem accounted_add (base : List (Nat × Nat × Nat)) (held : List Nat) (lo : Nat)
    (L : Local) (l : List mainloop_data) (hl : L.tdata.mainloop_list = some l)
    (p : Nat) (hp : p ∉ L.heap) (fd : Int) (events : Nat) (c : Callback)
    (destroy : Option Nat) (user_data : Nat) (k : List epoll_item)
    (a : Accounted base held lo L) :
    Accounted base held lo
      { tdata := { L.tdata with mainloop_list := some (l ++
          [mainloop_data.mk p L.next_block fd events c destroy user_data
            L.tdata.epoll_fd]) },
        interest := k, heap := p :: L.heap, next_block := L.next_block + 1,
        log := L.log ++ [Event.registered L.next_block fd destroy user_data] } := by
  have hlive : live L.tdata = l := by simp only [live, hl]
  have hge := a.live_ge
  have hnd := a.addr_nodup
  have hah := a.addr_heap
  have hhl := a.held_live
  have hperm := a.perm
  rw [hlive] at hge hnd hah hhl hperm
  refine ⟨?_, Nat.le_succ_of_le a.lo_le, ?_, ?_, ?_, ?_, ?_, a.held_nodup, ?_, ?_⟩
  · intro d hd
    simp only [live, List.mem_append, List.mem_singleton] at hd
    rcases hd with hd | hd
    · exact hge d hd
    · rw [hd]; exact a.lo_le
  · intro b hb
    simp only [registered_blocks_append, List.mem_append] at hb
    rcases hb with hb | hb
    · exact Nat.lt_succ_of_lt (a.reg_lt b hb)
    · simp only [registered_blocks, List.filterMap_cons, List.filterMap_nil,
        List.mem_singleton] at hb
      rw [hb]; exact Nat.lt_succ_self _
  · simp only [registered_blocks_append]
    refine List.Nodup.append a.reg_nodup ?_ ?_
    · simp [registered_blocks]
    · intro b hb hb'
      simp only [registered_blocks, List.filterMap_cons, List.filterMap_nil,
        List.mem_singleton] at hb'
      have := a.reg_lt b hb
      omega
  · simp only [owed_append, destroyed_append, live, pending_append]
    have hd0 : destroyed [Event.registered L.next_block fd destroy user_data] = [] := rfl
    have hx : owed [Event.registered L.next_block fd destroy user_data] =
        pending [mainloop_data.mk p L.next_block fd events c destroy user_data
          L.tdata.epoll_fd] := by
      cases destroy <;> rfl
    rw [hd0, List.append_nil, hx]
    refine (List.Perm.append_right _ hperm).trans ?_
    simp only [List.append_assoc]
    exact List.Perm.append_left _ (List.Perm.append_left _ List.perm_append_comm)
  · simp only [live, List.map_append, List.map_cons, List.map_nil]
    refine List.Nodup.append hnd (List.nodup_singleton _) ?_
    intro b hb hb'
    simp only [List.mem_singleton] at hb'
    obtain ⟨d, hd, rfl⟩ := List.mem_map.mp hb
    exact hp (hb' ▸ hah d hd)
  · intro d hd
    simp only [live, List.mem_append, List.mem_singleton] at hd
    rcases hd with hd | hd
    · exact List.mem_cons_of_mem _ (hah d hd)
    · rw [hd]; exact List.mem_cons_self _ _
  · intro x hx
    exact List.mem_cons_of_mem _ (a.held_heap x hx)
  · intro d hd
    simp only [live, List.mem_append, List.mem_singleton] at hd
    rcases hd with hd | hd
    · exact hhl d hd
    · rw [hd]
      exact fun hm => hp (a.held_heap p hm)

theorem invocations_registered (lg : List Event) (b : Nat) (fd : Int) (f : Option Nat)
    (ud : Nat) : invocations (lg ++ [Event.registered b fd f ud]) = invocations lg := by
  simp [invocations]

theorem add_fd_rel (w : World) (L : Local) (tid : Nat) (env : AddEnv) (fd : Int)
    (events : Nat) (cb : Option Callback) (user_data : Nat) (destroy : Option Nat)
    (hw : (find_thread_data_by_tid w tid).isSome) (hL : L.tdata.tid = tid) :
    ∃ L', (mainloop_add_fd env tid fd events cb user_data destroy (w.put L)).1 = w.put L' ∧
      Rel L L' ∧ invocations L'.log = invocations L.log := by
  rcases add_fd_put_cases w L tid env fd events cb user_data destroy hw hL with
    ⟨n, r, hn, _, h⟩ | ⟨l, c, hl, h⟩
  · have h1 := congrArg Prod.fst h
    exact ⟨_, h1, rel_of_kernel L L.interest n hn, rfl⟩
  · have h1 := congrArg Prod.fst h
    refine ⟨_, h1, ⟨⟨rfl, rfl, rfl, [Event.registered L.next_block fd destroy user_data],
      rfl, rfl, rfl, ?_⟩, fun base held lo a => ?_⟩, invocations_registered _ _ _ _ _⟩
    · intro d hd
      simp only [live, List.mem_append, List.mem_singleton] at hd
      rcases hd with hd | hd
      · left
        have : d ∈ live L.tdata := by simp only [live, hl]; exact hd
        exact List.mem_map_of_mem _ this
      · right
        rw [hd]
        simp [registered_fds]
    · exact accounted_add base held lo L l hl _ (malloc_not_mem _ _) fd events c destroy
        user_data _ a

/-! ## Modification on the calling thread's view -/

theorem pending_map_events (l : List mainloop_data) (p : mainloop_data → Bool)
    (events : Nat) :
    pending (l.map (fun e => if p e then { e with events := events } else e)) =
      pending l := by
  induction l with
  | nil => rfl
  | cons a l ih =>
    simp only [List.map_cons, pending_cons, ih]
    congr 1
    by_cases h : p a = true
    · simp only [h, if_true]; rfl
    · simp only [h]; rfl

theorem addrs_map_events (l : List mainloop_data) (p : mainloop_data → Bool)
    (events : Nat) :
    (l.map (fun e => if p e then { e with events := events } else e)).map
      (fun d => d.addr) = l.map (fun d => d.addr) := by
  induction l with
  | nil => rfl
  | cons a l ih =>
    simp only [List.map_cons, ih]
    congr 1
    by_cases h : p a = true
    · simp only [h, if_true]
    · simp only [h]; rfl

theorem fds_map_events (l : List mainloop_data) (p : mainloop_data → Bool)
    (events : Nat) :
    (l.map (fun e => if p e then { e with events := events } else e)).map
      (fun d => d.fd) = l.map (fun d => d.fd) := by
  induction l with
  | nil => rfl
  | cons a l ih =>
    simp only [List.map_cons, ih]
    congr 1
    by_cases h : p a = true
    · simp only [h, if_true]
    · simp only [h]; rfl

theorem mem_map_events {l : List mainloop_data} {p : mainloop_data → Bool} {events : Nat}
    {x : mainloop_data}
    (hx : x ∈ l.map (fun e => if p e then { e with events := events } else e)) :
    ∃ y ∈ l, y.addr = x.addr ∧ y.block = x.block ∧ y.fd = x.fd := by
  obtain ⟨y, hy, rfl⟩ := List.mem_map.mp hx
  refine ⟨y, hy, ?_⟩
  by_cases hb : p y = true
  · simp only [hb, if_true, and_self]
  · simp only [hb, Bool.false_eq_true, if_false, and_self]

theorem modify_fd_rel (w : World) (L : Local) (tid : Nat) (permit : Bool) (fd : Int)
    (events : Nat)
    (hw : (find_thread_data_by_tid w tid).isSome) (hL : L.tdata.tid = tid) :
    ∃ L', (mainloop_modify_fd permit tid fd events (w.put L)).1 = w.put L' ∧ Rel L L' ∧
      invocations L'.log = invocations L.log := by
  subst hL
  unfold mainloop_modify_fd
  simp only [find_put hw]
  by_cases hfd : fd < 0
  · exact ⟨L, by simp only [hfd, if_true], rel_refl L, rfl⟩
  simp only [hfd, if_false]
  cases hfind : queue_find L.tdata.mainloop_list (match_by_fd fd) with
  | none => exact ⟨L, rfl, rel_refl L, rfl⟩
  | some d =>
    simp only [put_interest]
    by_cases he : (epoll_ctl L.interest permit L.tdata.epoll_fd EpollOp.EPOLL_CTL_MOD d.fd
        events d.addr).2 < 0
    · refine ⟨L, ?_, rel_refl L, rfl⟩
      simp only [he, if_true]
      rw [epoll_ctl_fail _ _ _ _ _ _ _ he]
      rfl
    · simp only [he, if_false, put_with, store_put, put_log, put_next_block, put_heap]
      have hlive : live { L.tdata with mainloop_list := L.tdata.mainloop_list.map (fun l =>
            l.map (fun e => if same_addr d.addr e then { e with events := events }
              else e)) } =
          (live L.tdata).map (fun e => if same_addr d.addr e then
            { e with events := events } else e) := by
        simp only [live]
        cases L.tdata.mainloop_list <;> rfl
      refine ⟨_, rfl, ⟨⟨rfl, rfl, rfl, [], by simp, rfl, rfl, ?_⟩, fun base held lo a => ?_⟩,
        rfl⟩
      · intro x hx
        left
        rw [hlive] at hx
        have := List.mem_map_of_mem (fun d => d.fd) hx
        rw [fds_map_events] at this
        exact this
      · refine ⟨?_, a.lo_le, a.reg_lt, a.reg_nodup, ?_, ?_, ?_, a.held_nodup, a.held_heap,
          ?_⟩
        · intro x hx
          simp only [hlive] at hx
          obtain ⟨y, hy, _, hb, _⟩ := mem_map_events hx
          rw [← hb]; exact a.live_ge y hy
        · simp only [hlive, pending_map_events]
          exact a.perm
        · simp only [hlive, addrs_map_events]
          exact a.addr_nodup
        · intro x hx
          simp only [hlive] at hx
          obtain ⟨y, hy, ha, _, _⟩ := mem_map_events hx
          rw [← ha]; exact a.addr_heap y hy
        · intro x hx
          simp only [hlive] at hx
          obtain ⟨y, hy, ha, _, _⟩ := mem_map_events hx
          rw [← ha]; exact a.held_live y hy

/-! ## Removal on the calling thread's view -/

theorem remove_fd_with_put_found (D : mainloop_data → World → World) (w : World)
    (L : Local) (tid : Nat) (fd : Int) (d : mainloop_data)
    (hw : (find_thread_data_by_tid w tid).isSome) (hL : L.tdata.tid = tid)
    (hfd : 0 ≤ fd)
    (hfind : queue_find L.tdata.mainloop_list (match_by_fd fd) = some d) :
    remove_fd_with D tid fd (w.put L) =
      (free d.addr (D d (w.put (L.without d.addr (epoll_ctl L.interest true
        L.tdata.epoll_fd EpollOp.EPOLL_CTL_DEL d.fd 0 0).1))),
       (epoll_ctl L.interest true L.tdata.epoll_fd EpollOp.EPOLL_CTL_DEL d.fd 0 0).2) := by
  subst hL
  have hnot : ¬ fd < 0 := not_lt.mpr hfd
  unfold remove_fd_with
  simp only [find_put hw, hnot, if_false, hfind, store_put]
  rfl

theorem remove_fd_with_put_none (D : mainloop_data → World → World) (w : World)
    (L : Local) (tid : Nat) (fd : Int)
    (hw : (find_thread_data_by_tid w tid).isSome) (hL : L.tdata.tid = tid)
    (hfd : 0 ≤ fd)
    (hfind : queue_find L.tdata.mainloop_list (match_by_fd fd) = none) :
    remove_fd_with D tid fd (w.put L) = (w.put L, - ENXIO) := by
  subst hL
  have hnot : ¬ fd < 0 := not_lt.mpr hfd
  unfold remove_fd_with
  simp only [find_put hw, hnot, if_false, hfind]

theorem eraseP_addr_perm (l : List mainloop_data) (d : mainloop_data) (hd : d ∈ l)
    (hnd : (l.map (fun d => d.addr)).Nodup) :
    (pending l).Perm ((pending_one d).toList ++ pending (l.eraseP (same_addr d.addr))) := by
  induction l with
  | nil => simp at hd
  | cons a l ih =>
    simp only [List.map_cons, List.nodup_cons] at hnd
    by_cases hb : same_addr d.addr a = true
    · have hab : a.addr = d.addr := by simpa [same_addr] using hb
      have hda : d = a := by
        rcases List.mem_cons.mp hd with h | h
        · exact h
        · exfalso
          apply hnd.1
          rw [hab]
          exact List.mem_map.mpr ⟨d, h, rfl⟩
      subst hda
      simp only [List.eraseP_cons, hb, cond_true, pending_cons]
      exact List.Perm.refl _
    · have hda : d ∈ l := by
        rcases List.mem_cons.mp hd with h | h
        · subst h
          simp [same_addr] at hb
        · exact h
      simp only [Bool.not_eq_true] at hb
      simp only [List.eraseP_cons, hb, cond_false, pending_cons]
      exact (List.Perm.append_left _ (ih hda hnd.2)).trans
        (List.perm_append_comm_assoc _ _ _)

theorem eraseP_addr_ne (l : List mainloop_data) (d : mainloop_data) (hd : d ∈ l)
    (hnd : (l.map (fun d => d.addr)).Nodup) :
    ∀ x ∈ l.eraseP (same_addr d.addr), x.addr ≠ d.addr := by
  induction l with
  | nil => simp at hd
  | cons a l ih =>
    simp only [List.map_cons, List.nodup_cons] at hnd
    by_cases hb : same_addr d.addr a = true
    · have hab : a.addr = d.addr := by simpa [same_addr] using hb
      simp only [List.eraseP_cons, hb, cond_true]
      intro x hx hxa
      apply hnd.1
      rw [hab, ← hxa]
      exact List.mem_map_of_mem _ hx
    · have hda : d ∈ l := by
        rcases List.mem_cons.mp hd with h | h
        · subst h
          simp [same_addr] at hb
        · exact h
      have hne : a.addr ≠ d.addr := by simpa [same_addr] using hb
      simp only [Bool.not_eq_true] at hb
      simp only [List.eraseP_cons, hb, cond_false]
      intro x hx
      rcases List.mem_cons.mp hx with h | h
      · rw [h]; exact hne
      · exact ih hda hnd.2 x h

theorem mem_of_queue_find {q : Option (List mainloop_data)} {p : mainloop_data → Bool}
    {d : mainloop_data} (h : queue_find q p = some d) :
    ∃ l, q = some l ∧ d ∈ l := by
  cases q with
  | none => simp [queue_find] at h
  | some l => exact ⟨l, rfl, List.mem_of_find?_eq_some h⟩

theorem live_without (L : Local) (p : Nat) (k : List epoll_item) :
    live (L.without p k).tdata = (live L.tdata).eraseP (same_addr p) := by
  simp only [live, Local.without, queue_remove]
  cases L.tdata.mainloop_list <;> rfl

theorem frame_without (L : Local) (p : Nat) (k : List epoll_item) :
    Frame L (L.without p k) := by
  refine ⟨rfl, rfl, rfl, [], by simp [Local.without], rfl, rfl, fun d hd => Or.inl ?_⟩
  rw [live_without] at hd
  exact List.mem_map_of_mem _ (List.mem_of_mem_eraseP hd)

/-- A watcher taken out of the collection: its cleanup is still to come and its
address is still in use. -/
theorem accounted_without (base : List (Nat × Nat × Nat)) (held : List Nat) (lo : Nat)
    (L : Local) (d : mainloop_data) (k : List epoll_item) (hd : d ∈ live L.tdata)
    (a : Accounted base held lo L) :
    Accounted ((pending_one d).toList ++ base) (d.addr :: held) lo
      (L.without d.addr k) := by
  have hsub : ∀ x ∈ live (L.without d.addr k).tdata, x ∈ live L.tdata := by
    intro x hx
    rw [live_without] at hx
    exact List.mem_of_mem_eraseP hx
  have hne := eraseP_addr_ne (live L.tdata) d hd a.addr_nodup
  refine ⟨fun x hx => a.live_ge x (hsub x hx), a.lo_le, a.reg_lt, a.reg_nodup, ?_, ?_,
    fun x hx => a.addr_heap x (hsub x hx), ?_, ?_, ?_⟩
  · show (owed L.log).Perm (destroyed L.log ++ pending (live (L.without d.addr k).tdata) ++
      ((pending_one d).toList ++ base))
    rw [live_without]
    refine a.perm.trans ?_
    simp only [List.append_assoc]
    refine List.Perm.append_left _ ?_
    have := List.Perm.append_right base (eraseP_addr_perm (live L.tdata) d hd a.addr_nodup)
    refine this.trans ?_
    simp only [List.append_assoc]
    exact List.perm_append_comm_assoc _ _ _
  · rw [live_without]
    exact List.Nodup.sublist ((List.eraseP_sublist _).map _) a.addr_nodup
  · exact List.nodup_cons.mpr ⟨a.held_live d hd, a.held_nodup⟩
  · intro x hx
    rcases List.mem_cons.mp hx with h | h
    · rw [h]; exact a.addr_heap d hd
    · exact a.held_heap x h
  · intro x hx hm
    rcases List.mem_cons.mp hm with h | h
    · rw [live_without] at hx
      exact hne x hx h
    · exact a.held_live x (hsub x hx) h

/-- The cleanup of a watcher taken out of the collection is recorded. -/
theorem accounted_destroy (base : List (Nat × Nat × Nat)) (held : List Nat) (lo : Nat)
    (L : Local) (b f ud : Nat) (a : Accounted ((b, f, ud) :: base) held lo L) :
    Accounted base held lo (L.emit (Event.destroy b f ud)) := by
  refine ⟨a.live_ge, a.lo_le, ?_, ?_, ?_, a.addr_nodup, a.addr_heap, a.held_nodup,
    a.held_heap, a.held_live⟩
  · have : registered_blocks (L.emit (Event.destroy b f ud)).log = registered_blocks L.log := by
      simp [Local.emit, registered_blocks]
    rw [this]; exact a.reg_lt
  · have : registered_blocks (L.emit (Event.destroy b f ud)).log = registered_blocks L.log := by
      simp [Local.emit, registered_blocks]
    rw [this]; exact a.reg_nodup
  · have h1 : owed (L.emit (Event.destroy b f ud)).log = owed L.log := by
      simp [Local.emit, owed]
    have h2 : destroyed (L.emit (Event.destroy b f ud)).log =
        destroyed L.log ++ [(b, f, ud)] := by
      simp [Local.emit, destroyed]
    show (owed (L.emit (Event.destroy b f ud)).log).Perm
      (destroyed (L.emit (Event.destroy b f ud)).log ++ pending (live L.tdata) ++ base)
    rw [h1, h2]
    refine a.perm.trans ?_
    simp only [List.append_assoc, List.singleton_append]
    exact List.Perm.append_left _ List.perm_middle

theorem frame_emit_destroy (L : Local) (b f ud : Nat) :
    Frame L (L.emit (Event.destroy b f ud)) :=
  ⟨rfl, rfl, rfl, [Event.destroy b f ud], rfl, rfl, rfl,
    fun _ hd => Or.inl (List.mem_map_of_mem _ hd)⟩

/-- The address of a watcher taken out of the collection is freed. -/
theorem accounted_free (base : List (Nat × Nat × Nat)) (held : List Nat) (lo : Nat)
    (L : Local) (p : Nat) (a : Accounted base (p :: held) lo L) :
    Accounted base held lo (L.free p) := by
  have hnd := List.nodup_cons.mp a.held_nodup
  refine ⟨a.live_ge, a.lo_le, a.reg_lt, a.reg_nodup, a.perm, a.addr_nodup, ?_, hnd.2, ?_,
    ?_⟩
  · intro d hd
    refine mem_filter_ne.mpr ⟨a.addr_heap d hd, ?_⟩
    intro h
    exact a.held_live d hd (h ▸ List.mem_cons_self _ _)
  · intro x hx
    refine mem_filter_ne.mpr ⟨a.held_heap x (List.mem_cons_of_mem _ hx), ?_⟩
    intro h
    exact hnd.1 (h ▸ hx)
  · intro d hd hm
    exact a.held_live d hd (List.mem_cons_of_mem _ hm)

theorem frame_free (L : Local) (p : Nat) : Frame L (L.free p) := frame_of_eq L _ rfl rfl

/-! ## Client code keeps the frame and the books -/

theorem lifts_of_qlifts {tid : Nat} {f : World → World} (h : QLifts tid f) : Lifts tid f :=
  fun w L hw hL => let ⟨L', e, r, _⟩ := h w L hw hL; ⟨L', e, r⟩

theorem lifts_id (tid : Nat) : Lifts tid (fun w => w) :=
  fun _ L _ _ => ⟨L, rfl, rel_refl L⟩

theorem lifts_comp {tid : Nat} {f g : World → World} (hf : Lifts tid f) (hg : Lifts tid g) :
    Lifts tid (fun w => g (f w)) := by
  intro w L hw hL
  obtain ⟨L1, e1, r1⟩ := hf w L hw hL
  obtain ⟨L2, e2, r2⟩ := hg w L1 hw (r1.1.tid.trans hL)
  exact ⟨L2, by simp only [e1, e2], rel_trans r1 r2⟩

theorem lifts_foldl {α : Type} {tid : Nat} (f : World → α → World)
    (hf : ∀ a, Lifts tid (fun w => f w a)) (l : List α) :
    Lifts tid (fun w => l.foldl f w) := by
  induction l with
  | nil => exact lifts_id tid
  | cons a l ih => exact lifts_comp (hf a) ih

/-- An operation whose arguments are chosen by looking at the state. -/
theorem lifts_dep {α : Type} {tid : Nat} (f : α → World → World) (g : World → α)
    (hf : ∀ a, Lifts tid (f a)) : Lifts tid (fun w => f (g w) w) :=
  fun w L hw hL => hf (g (w.put L)) w L hw hL

theorem lifts_emit (tid : Nat) (e : Event)
    (h1 : ∀ c, e ≠ Event.ctl c) (h2 : ∀ b fd f ud, e ≠ Event.registered b fd f ud)
    (h3 : ∀ b f ud, e ≠ Event.destroy b f ud) : Lifts tid (fun w => w.emit e) :=
  fun _ L _ _ => ⟨_, emit_put _ L e, rel_of_emit L e h1 h2 h3⟩

theorem qlifts_id (tid : Nat) : QLifts tid (fun w => w) :=
  fun _ L _ _ => ⟨L, rfl, rel_refl L, rfl⟩

theorem qlifts_comp {tid : Nat} {f g : World → World} (hf : QLifts tid f)
    (hg : QLifts tid g) : QLifts tid (fun w => g (f w)) := by
  intro w L hw hL
  obtain ⟨L1, e1, r1, q1⟩ := hf w L hw hL
  obtain ⟨L2, e2, r2, q2⟩ := hg w L1 hw (r1.1.tid.trans hL)
  exact ⟨L2, by simp only [e1, e2], rel_trans r1 r2, q2.trans q1⟩

theorem qlifts_foldl {α : Type} {tid : Nat} (f : World → α → World)
    (hf : ∀ a, QLifts tid (fun w => f w a)) (l : List α) :
    QLifts tid (fun w => l.foldl f w) := by
  induction l with
  | nil => exact qlifts_id tid
  | cons a l ih => exact qlifts_comp (hf a) ih

theorem qlifts_dep {α : Type} {tid : Nat} (f : α → World → World) (g : World → α)
    (hf : ∀ a, QLifts tid (f a)) : QLifts tid (fun w => f (g w) w) :=
  fun w L hw hL => hf (g (w.put L)) w L hw hL

theorem qlifts_do_ctl (tid : Nat) (c : Ctl) : QLifts tid (do_ctl tid c) := by
  intro w L hw hL
  refine ⟨_, do_ctl_put w L tid c hw hL, rel_of_ctl L c, ?_⟩
  simp [invocations]

theorem qlifts_mainloop_quit (tid : Nat) : QLifts tid (mainloop_quit tid) :=
  qlifts_do_ctl tid Ctl.quit

/-- Removal with a cleanup call that settles the books keeps the frame and the
books. -/
theorem qlifts_remove_fd_with {tid : Nat} {D : mainloop_data → World → World}
    (hD : Cleans tid D) (fd : Int) : QLifts tid (fun w => (remove_fd_with D tid fd w).1) := by
  intro w L hw hL
  by_cases hfd : fd < 0
  · refine ⟨L, ?_, rel_refl L, rfl⟩
    subst hL
    simp only [remove_fd_with, find_put hw, hfd, if_true]
  cases hfind : queue_find L.tdata.mainloop_list (match_by_fd fd) with
  | none =>
    refine ⟨L, ?_, rel_refl L, rfl⟩
    simp only [remove_fd_with_put_none D w L tid fd hw hL (not_lt.mp hfd) hfind]
  | some d =>
    obtain ⟨l, hl, hd⟩ := mem_of_queue_find hfind
    have hdl : d ∈ live L.tdata := by simp only [live, hl]; exact hd
    simp only [remove_fd_with_put_found D w L tid fd d hw hL (not_lt.mp hfd) hfind]
    obtain ⟨L2, e2, f2, i2, _, a2⟩ := hD d w (L.without d.addr (epoll_ctl L.interest true
      L.tdata.epoll_fd EpollOp.EPOLL_CTL_DEL d.fd 0 0).1) hw hL
    refine ⟨L2.free d.addr, by rw [e2, free_put], ⟨?_, fun base held lo a => ?_⟩, i2⟩
    · exact frame_trans (frame_trans (frame_without L _ _) f2) (frame_free L2 _)
    · exact accounted_free base held lo L2 d.addr
        (a2 base (d.addr :: held) lo (accounted_without base held lo L d _ hdl a))

theorem qlifts_do_call_with {tid : Nat} {D : mainloop_data → World → World}
    (hD : Cleans tid D) (c : Call) : QLifts tid (do_call_with D tid c) := by
  intro w L hw hL
  cases c with
  | ctl c => exact qlifts_do_ctl tid c w L hw hL
  | add_fd env fd events callback user_data destroy =>
    exact add_fd_rel w L tid env fd events _ user_data destroy hw hL
  | modify_fd permit fd events => exact modify_fd_rel w L tid permit fd events hw hL
  | remove_fd fd => exact qlifts_remove_fd_with hD fd w L hw hL

/-- The call of a cleanup callback, whatever room the call stack has. -/
theorem cleans_call_destroy (depth : Nat) (U : Client) (tid : Nat) :
    Cleans tid (call_destroy depth U tid) := by
  induction depth with
  | zero =>
    intro data w L hw hL
    cases hdes : data.destroy with
    | none =>
      refine ⟨L, ?_, frame_refl L, rfl, fun f hf => (by cases hf),
        fun base held lo a => ?_⟩
      · simp only [call_destroy, hdes]
      · simpa only [pending_one, hdes, Option.map_none', Option.toList, List.nil_append]
          using a
    | some f =>
      have r1 := rel_of_emit (L.emit (Event.destroy data.block f data.user_data))
        Event.overflow (fun _ h => by cases h) (fun _ _ _ _ h => by cases h)
        (fun _ _ _ h => by cases h)
      refine ⟨(L.emit (Event.destroy data.block f data.user_data)).emit Event.overflow,
        ?_, ?_, ?_, ?_, fun base held lo a => ?_⟩
      · simp only [call_destroy, hdes, emit_put]
        rfl
      · exact frame_trans (frame_emit_destroy L _ _ _) r1.1
      · simp [Local.emit, invocations]
      · intro g hg
        cases hg
        exact ⟨[Event.overflow], by simp [Local.emit]⟩
      · apply r1.2
        apply accounted_destroy
        simpa only [pending_one, hdes, Option.map_some', Option.toList, List.singleton_append]
          using a
  | succ depth ih =>
    intro data w L hw hL
    cases hdes : data.destroy with
    | none =>
      refine ⟨L, ?_, frame_refl L, rfl, fun f hf => (by cases hf),
        fun base held lo a => ?_⟩
      · simp only [call_destroy, hdes]
      · simpa only [pending_one, hdes, Option.map_none', Option.toList, List.nil_append]
          using a
    | some f =>
      obtain ⟨L2, e2, r2, i2⟩ := qlifts_dep
        (fun cs w => cs.foldl (fun w c => do_call_with (call_destroy depth U tid) tid c w) w)
        (fun w => U.destroy f data.user_data w)
        (fun cs => qlifts_foldl _ (qlifts_do_call_with ih) cs)
        w (L.emit (Event.destroy data.block f data.user_data)) hw hL
      refine ⟨L2, ?_, ?_, ?_, ?_, fun base held lo a => ?_⟩
      · simp only [call_destroy, hdes, emit_put]
        exact e2
      · exact frame_trans (frame_emit_destroy L _ _ _) r2.1
      · rw [i2]
        simp [Local.emit, invocations]
      · intro g hg
        cases hg
        obtain ⟨new, hnew, _⟩ := r2.1.log
        exact ⟨new, by rw [hnew]; simp [Local.emit]⟩
      · apply r2.2
        apply accounted_destroy
        simpa only [pending_one, hdes, Option.map_some', Option.toList, List.singleton_append]
          using a

theorem qlifts_do_call (depth : Nat) (U : Client) (tid : Nat) (c : Call) :
    QLifts tid (do_call depth U tid c) :=
  qlifts_do_call_with (cleans_call_destroy depth U tid) c

theorem qlifts_run_script (depth : Nat) (U : Client) (tid : Nat) (cs : List Call) :
    QLifts tid (run_script depth U tid cs) :=
  qlifts_foldl (fun w c => do_call depth U tid c w) (qlifts_do_call depth U tid) cs

theorem qlifts_remove_fd (depth : Nat) (U : Client) (tid : Nat) (fd : Int) :
    QLifts tid (fun w => (mainloop_remove_fd depth U tid fd w).1) :=
  qlifts_remove_fd_with (cleans_call_destroy depth U tid) fd

theorem lifts_run_script (depth : Nat) (U : Client) (tid : Nat) (cs : List Call) :
    Lifts tid (run_script depth U tid cs) :=
  lifts_of_qlifts (qlifts_run_script depth U tid cs)

/-- With room on the call stack a cleanup callback is recorded and makes its
calls. -/
theorem call_destroy_succ (depth : Nat) (U : Client) (tid : Nat) (data : mainloop_data)
    (f : Nat) (w : World) (h : data.destroy = some f) :
    call_destroy (depth + 1) U tid data w =
      run_script depth U tid
        (U.destroy f data.user_data (w.emit (Event.destroy data.block f data.user_data)))
        (w.emit (Event.destroy data.block f data.user_data)) := by
  simp only [call_destroy, h]
  rfl

/-! ## The dispatch keeps the frame and the books -/

theorem lifts_signal_callback (depth : Nat) (U : Client) (tid : Nat) (events : Nat) :
    Lifts tid (signal_callback depth U tid events) := by
  intro w L hw hL
  unfold signal_callback
  by_cases he : events &&& (EPOLLERR ||| EPOLLHUP) ≠ 0
  · rw [if_pos he]
    exact lifts_of_qlifts (qlifts_mainloop_quit tid) w L hw hL
  · rw [if_neg he]
    cases U.signalfd_read (w.put L) with
    | none => exact ⟨L, rfl, rel_refl L⟩
    | some signo =>
      simp only
      cases (find_thread_data_by_tid (w.put L) tid).bind (fun t => t.signal_data) with
      | none => exact ⟨L, rfl, rel_refl L⟩
      | some data =>
        simp only
        cases data.callback with
        | none => exact ⟨L, rfl, rel_refl L⟩
        | some f =>
          simp only
          exact lifts_comp
            (lifts_emit tid (Event.signal f signo data.user_data)
              (fun _ h => by cases h) (fun _ _ _ _ h => by cases h)
              (fun _ _ _ h => by cases h))
            (lifts_dep (fun cs w => run_script depth U tid cs w)
              (fun w => U.signal f signo data.user_data w) (lifts_run_script depth U tid))
            w L hw hL

theorem callback_body_lifts (depth : Nat) (U : Client) (tid : Nat) (cb : Callback) (fd : Int)
    (events ud : Nat) :
    Lifts tid (fun w1 =>
      match cb with
      | .user f => run_script depth U tid (U.event f fd events ud w1) w1
      | .signal_callback => signal_callback depth U tid events w1) := by
  cases cb with
  | user f =>
    exact lifts_dep (fun cs w => run_script depth U tid cs w)
      (fun w => U.event f fd events ud w) (lifts_run_script depth U tid)
  | signal_callback => exact lifts_signal_callback depth U tid events

theorem lifts_call_callback (depth : Nat) (U : Client) (tid : Nat) (data : mainloop_data)
    (events : Nat) : Lifts tid (call_callback depth U tid data events) := by
  have h := lifts_comp
    (lifts_emit tid (Event.invoke data.callback data.fd events data.user_data)
      (fun _ h => by cases h) (fun _ _ _ _ h => by cases h) (fun _ _ _ h => by cases h))
    (callback_body_lifts depth U tid data.callback data.fd events data.user_data)
  intro w L hw hL
  obtain ⟨L', e, r⟩ := h w L hw hL
  refine ⟨L', ?_, r⟩
  rw [← e]
  unfold call_callback
  cases data.callback <;> rfl

theorem lifts_dispatch_event (depth : Nat) (U : Client) (tid : Nat) (ev : epoll_event) :
    Lifts tid (dispatch_event depth U tid ev) := by
  intro w L hw hL
  unfold dispatch_event
  cases (find_thread_data_by_tid (w.put L) tid).bind
      (fun t => queue_find t.mainloop_list (same_addr ev.data)) with
  | none => exact ⟨L, rfl, rel_refl L⟩
  | some data => exact lifts_call_callback depth U tid data ev.events w L hw hL

theorem lifts_dispatch_batch (depth : Nat) (U : Client) (tid : Nat)
    (batch : List epoll_event) : Lifts tid (dispatch_batch depth U tid batch) :=
  lifts_foldl (fun w ev => dispatch_event depth U tid ev w)
    (lifts_dispatch_event depth U tid) batch

/-- A callback invocation is recorded first, then come the events of its body. -/
theorem call_callback_log (depth : Nat) (U : Client) (tid : Nat) (d : mainloop_data)
    (events : Nat) (w : World) (L : Local) (hw : (find_thread_data_by_tid w tid).isSome)
    (hL : L.tdata.tid = tid) :
    ∃ Lc, call_callback depth U tid d events (w.put L) = w.put Lc ∧ Lc.tdata.tid = tid ∧
      ∃ tail, Lc.log = L.log ++ Event.invoke d.callback d.fd events d.user_data :: tail := by
  obtain ⟨Lc, ec, rc⟩ := callback_body_lifts depth U tid d.callback d.fd events d.user_data w
    (L.emit (Event.invoke d.callback d.fd events d.user_data)) hw hL
  refine ⟨Lc, ?_, rc.1.tid.trans hL, ?_⟩
  · rw [← ec]
    unfold call_callback
    simp only [emit_put]
    rfl
  · obtain ⟨new, hnew, _⟩ := rc.1.log
    exact ⟨new, by rw [hnew]; simp [Local.emit]⟩

theorem lifts_log {tid : Nat} {f : World → World} (hf : Lifts tid f) (w : World) (L : Local)
    (hw : (find_thread_data_by_tid w tid).isSome) (hL : L.tdata.tid = tid) :
    ∃ L', f (w.put L) = w.put L' ∧ L'.tdata.tid = tid ∧ ∃ new, L'.log = L.log ++ new := by
  obtain ⟨L', e, r⟩ := hf w L hw hL
  obtain ⟨new, hnew, _⟩ := r.1.log
  exact ⟨L', e, r.1.tid.trans hL, new, hnew⟩

/-! ## The loop -/

theorem terminated_put (w : World) (L : Local) (tid : Nat)
    (hw : (find_thread_data_by_tid w tid).isSome) (hL : L.tdata.tid = tid) :
    terminated tid (w.put L) = (L.tdata.epoll_terminate != 0) := by
  subst hL
  simp only [terminated, find_put hw]

/-- The loop acts on the view of the thread only; it ends with the termination flag
set, having consumed an initial part of the waits, or stays blocked with the flag
clear. -/
theorem loop_put (depth : Nat) (U : Client) (tid : Nat) (ws : List Wait) (w : World)
    (L : Local) (hw : (find_thread_data_by_tid w tid).isSome) (hL : L.tdata.tid = tid) :
    (∃ L' rest, mainloop_loop depth U tid ws (w.put L) = LoopResult.done (w.put L') rest ∧
      Rel L L' ∧ L'.tdata.epoll_terminate ≠ 0) ∨
    (∃ L', mainloop_loop depth U tid ws (w.put L) = LoopResult.blocked (w.put L') ∧
      Rel L L' ∧ L'.tdata.epoll_terminate = 0) := by
  induction ws generalizing L with
  | nil =>
    simp only [mainloop_loop, terminated_put w L tid hw hL]
    by_cases ht : L.tdata.epoll_terminate = 0
    · right
      exact ⟨L, by simp [ht], rel_refl L, ht⟩
    · left
      exact ⟨L, [], by simp [ht], rel_refl L, ht⟩
  | cons r rest ih =>
    simp only [mainloop_loop, terminated_put w L tid hw hL]
    by_cases ht : L.tdata.epoll_terminate = 0
    · simp only [ht, bne_self_eq_false, Bool.false_eq_true, if_false]
      by_cases hn : (epoll_wait MAX_EPOLL_EVENTS r).1 < 0
      · simp only [hn, if_true]
        exact ih L hL
      · simp only [hn, if_false]
        obtain ⟨L1, e1, r1⟩ := lifts_dispatch_batch depth U tid
          (epoll_wait MAX_EPOLL_EVENTS r).2 w L hw hL
        rw [e1]
        rcases ih L1 (r1.1.tid.trans hL) with ⟨L2, rest2, e2, r2, t2⟩ | ⟨L2, e2, r2, t2⟩
        · left; exact ⟨L2, rest2, e2, rel_trans r1 r2, t2⟩
        · right; exact ⟨L2, e2, rel_trans r1 r2, t2⟩
    · left
      exact ⟨L, r :: rest, by simp [ht], rel_refl L, ht⟩

/-- A loop that is blocked after the waits `pre` goes on with whatever comes
next. -/
theorem loop_append (depth : Nat) (U : Client) (tid : Nat) (pre ws : List Wait)
    (w w3 : World) (h : mainloop_loop depth U tid pre w = LoopResult.blocked w3) :
    mainloop_loop depth U tid (pre ++ ws) w = mainloop_loop depth U tid ws w3 := by
  induction pre generalizing w with
  | nil =>
    simp only [mainloop_loop] at h
    by_cases ht : terminated tid w = true
    · simp [ht] at h
    · simp only [ht, Bool.false_eq_true, if_false] at h
      injection h with h
      rw [List.nil_append, h]
  | cons r pre ih =>
    simp only [mainloop_loop] at h
    simp only [List.cons_append, mainloop_loop]
    by_cases ht : terminated tid w = true
    · simp [ht] at h
    · simp only [ht, Bool.false_eq_true, if_false] at h ⊢
      by_cases hn : (epoll_wait MAX_EPOLL_EVENTS r).1 < 0
      · simp only [hn, if_true] at h ⊢
        exact ih w h
      · simp only [hn, if_false] at h ⊢
        exact ih _ h

theorem loop_terminated (depth : Nat) (U : Client) (tid : Nat) (ws : List Wait) (w : World)
    (h : terminated tid w = true) :
    mainloop_loop depth U tid ws w = LoopResult.done w ws := by
  cases ws <;> simp [mainloop_loop, h]

/-! ## The teardown -/

theorem close_put (w : World) (L : Local) (fd : Int) :
    close fd (w.put L) =
      w.put { L with interest := L.interest.filter (fun i => !(i.fd == fd || i.epfd == fd)),
                     log := L.log ++ [Event.close fd] } := rfl

theorem qlifts_close (tid : Nat) (fd : Int) : QLifts tid (close fd) := by
  intro w L _ _
  refine ⟨{ L with interest := L.interest.filter (fun i => !(i.fd == fd || i.epfd == fd)),
                   log := L.log ++ [Event.close fd] }, rfl, ?_, ?_⟩
  · exact rel_trans (rel_of_kernel L (L.interest.filter (fun i => !(i.fd == fd || i.epfd == fd)))
        L.next_block (le_refl _))
      (rel_of_emit (Local.mk L.tdata
          (L.interest.filter (fun i => !(i.fd == fd || i.epfd == fd))) L.heap L.next_block
          L.log)
        (Event.close fd) (fun _ h => by cases h) (fun _ _ _ _ h => by cases h)
        (fun _ _ _ h => by cases h))
  · simp [invocations]

theorem qlifts_emit_signal_destroy (tid : Nat) (f ud : Nat) :
    QLifts tid (fun w => w.emit (Event.signal_destroy f ud)) := by
  intro w L _ _
  refine ⟨_, emit_put w L _, rel_of_emit L _ (fun _ h => by cases h)
    (fun _ _ _ _ h => by cases h) (fun _ _ _ h => by cases h), ?_⟩
  simp [invocations]

theorem qlifts_teardown_signal (depth : Nat) (U : Client) (tid : Nat)
    (sdo : Option signal_data) :
    QLifts tid (fun w =>
      match sdo with
      | none => w
      | some sd =>
        let w1 := close sd.fd (mainloop_remove_fd depth U tid sd.fd w).1
        match sd.destroy with
        | none => w1
        | some f =>
          let w2 := w1.emit (Event.signal_destroy f sd.user_data)
          run_script depth U tid (U.destroy f sd.user_data w2) w2) := by
  cases sdo with
  | none => exact qlifts_id tid
  | some sd =>
    have h1 := qlifts_comp (qlifts_remove_fd depth U tid sd.fd) (qlifts_close tid sd.fd)
    cases hdes : sd.destroy with
    | none => simpa only [hdes] using h1
    | some f =>
      have h2 := qlifts_comp h1 (qlifts_comp
        (qlifts_emit_signal_destroy tid f sd.user_data)
        (qlifts_dep (fun cs w => run_script depth U tid cs w)
          (fun w => U.destroy f sd.user_data w) (qlifts_run_script depth U tid)))
      simpa only [hdes] using h2

/-- The cleanup that `queue_destroy` applies to one watcher taken out of the
collection. -/
theorem destroy_step (depth : Nat) (U : Client) (tid : Nat) (d : mainloop_data) (w : World)
    (L : Local) (hw : (find_thread_data_by_tid w tid).isSome) (hL : L.tdata.tid = tid) :
    ∃ L1, destroy_mainloop_data depth U tid d (w.put L) = w.put L1 ∧ Frame L L1 ∧
      invocations L1.log = invocations L.log ∧
      ∀ base held lo, Accounted ((pending_one d).toList ++ base) (d.addr :: held) lo L →
        Accounted base held lo L1 := by
  obtain ⟨L2, e2, f2, i2, _, a2⟩ := cleans_call_destroy depth U tid d w
    { L with interest := (epoll_ctl L.interest true d.epoll_fd EpollOp.EPOLL_CTL_DEL
        d.fd 0 0).1 } hw hL
  have hdef : destroy_mainloop_data depth U tid d (w.put L) =
      free d.addr (call_destroy depth U tid d (w.put
        { L with interest := (epoll_ctl L.interest true d.epoll_fd EpollOp.EPOLL_CTL_DEL
            d.fd 0 0).1 })) := rfl
  refine ⟨L2.free d.addr, by rw [hdef, e2, free_put], ?_, i2, fun base held lo a => ?_⟩
  · exact frame_trans (frame_trans (frame_of_eq L
      { L with interest := (epoll_ctl L.interest true d.epoll_fd EpollOp.EPOLL_CTL_DEL
          d.fd 0 0).1 } rfl rfl) f2) (frame_free L2 _)
  · exact accounted_free base held lo L2 d.addr
      (a2 base (d.addr :: held) lo (accounted_of_live _ _ lo L
        { L with interest := (epoll_ctl L.interest true d.epoll_fd EpollOp.EPOLL_CTL_DEL
            d.fd 0 0).1 } rfl rfl (le_refl _) rfl a))

/-- The cleanup of every watcher of a collection, as `queue_destroy` runs it. -/
theorem destroy_all_put (depth : Nat) (U : Client) (tid : Nat) (l : List mainloop_data)
    (w : World) (L : Local) (hw : (find_thread_data_by_tid w tid).isSome)
    (hL : L.tdata.tid = tid) :
    ∃ L', l.foldl (fun w d => destroy_mainloop_data depth U tid d w) (w.put L) = w.put L' ∧
      Frame L L' ∧ invocations L'.log = invocations L.log ∧
      ∀ base held lo,
        Accounted (pending l ++ base) (l.map (fun d => d.addr) ++ held) lo L →
        Accounted base held lo L' := by
  induction l generalizing L with
  | nil =>
    exact ⟨L, rfl, frame_refl L, rfl, fun base held lo a => by simpa [pending] using a⟩
  | cons d l ih =>
    obtain ⟨L1, e1, f1, i1, a1⟩ := destroy_step depth U tid d w L hw hL
    obtain ⟨L2, e2, f2, i2, a2⟩ := ih L1 (f1.tid.trans hL)
    refine ⟨L2, ?_, frame_trans f1 f2, i2.trans i1, fun base held lo a => ?_⟩
    · simp only [List.foldl, e1, e2]
    · apply a2
      apply a1
      simpa only [pending_cons, List.append_assoc, List.map_cons, List.cons_append] using a

/-- The collection emptied by `queue_destroy`: the cleanups of the watchers it held
are still to come and their addresses are still in use. -/
theorem accounted_detach (base : List (Nat × Nat × Nat)) (held : List Nat) (lo : Nat)
    (L : Local) (l : List mainloop_data) (hl : L.tdata.mainloop_list = some l)
    (a : Accounted base held lo L) :
    Accounted (pending l ++ base) (l.map (fun d => d.addr) ++ held) L.next_block
      { L with tdata := { L.tdata with mainloop_list := some [] } } := by
  have hlive : live L.tdata = l := by simp only [live, hl]
  have hnd := a.addr_nodup
  have hah := a.addr_heap
  have hhl := a.held_live
  have hperm := a.perm
  rw [hlive] at hnd hah hhl hperm
  refine ⟨fun d hd => (by cases hd), le_refl _, a.reg_lt, a.reg_nodup, ?_, List.nodup_nil,
    fun d hd => (by cases hd), ?_, ?_, fun d hd => (by cases hd)⟩
  · show (owed L.log).Perm (destroyed L.log ++ pending [] ++ (pending l ++ base))
    simpa [pending] using hperm
  · refine List.Nodup.append hnd a.held_nodup ?_
    intro x hx hx'
    obtain ⟨d, hd, rfl⟩ := List.mem_map.mp hx
    exact hhl d hd hx'
  · intro x hx
    rcases List.mem_append.mp hx with h | h
    · obtain ⟨d, hd, rfl⟩ := List.mem_map.mp h
      exact hah d hd
    · exact a.held_heap x h

theorem eraseP_map_tid (tid : Nat) (l : List thread_data) :
    (l.eraseP (match_tid tid)).map (fun t => t.tid) = (l.map (fun t => t.tid)).erase tid := by
  induction l with
  | nil => rfl
  | cons a l ih =>
    by_cases h : a.tid = tid
    · have hm : match_tid tid a = true := by simp [match_tid, h]
      simp [List.eraseP_cons, hm, h]
    · have hm : match_tid tid a = false := by simp [match_tid, h]
      simp only [List.eraseP_cons, hm, List.map_cons, ih, cond_false]
      rw [List.erase_cons_tail]
      simpa using h

theorem tids_queue_remove (w : World) (tid : Nat) :
    ({ w with threads_data := queue_remove w.threads_data (match_tid tid) } : World).tids =
      w.tids.erase tid := by
  simp only [World.tids, queue_remove]
  cases w.threads_data with
  | none => rfl
  | some l => exact eraseP_map_tid tid l

theorem owed_blocks_sublist (lg : List Event) :
    ((owed lg).map (fun x => x.1)).Sublist (registered_blocks lg) := by
  induction lg with
  | nil => exact List.Sublist.refl _
  | cons e lg ih =>
    cases e with
    | registered b fd f ud =>
      cases f with
      | none =>
        simp only [owed, registered_blocks, List.filterMap_cons] at ih ⊢
        exact List.Sublist.cons _ ih
      | some f =>
        simp only [owed, registered_blocks, List.filterMap_cons, List.map_cons] at ih ⊢
        exact List.Sublist.cons₂ _ ih
    | _ => simpa only [owed, registered_blocks, List.filterMap_cons] using ih

theorem owed_nodup {lg : List Event} (h : (registered_blocks lg).Nodup) : (owed lg).Nodup :=
  List.Nodup.of_map _ (List.Nodup.sublist (owed_blocks_sublist lg) h)

theorem owed_block_registered {lg : List Event} {x : Nat × Nat × Nat} (h : x ∈ owed lg) :
    x.1 ∈ registered_blocks lg :=
  (owed_blocks_sublist lg).subset (List.mem_map_of_mem _ h)

theorem pending_block {l : List mainloop_data} {x : Nat × Nat × Nat} (h : x ∈ pending l) :
    ∃ d ∈ l, d.block = x.1 := by
  simp only [pending, List.mem_filterMap] at h
  obtain ⟨d, hd, hx⟩ := h
  refine ⟨d, hd, ?_⟩
  simp only [pending_one, Option.map_eq_some'] at hx
  obtain ⟨f, _, hx⟩ := hx
  rw [← hx]

/-- What the teardown of `mainloop_run` does: it acts on the view of the thread,
invokes no callback of the dispatch, returns the exit status reached, closes the
epoll instance and takes the context out of the registry; when the books were
balanced, every cleanup that was owed has been invoked, and the only watchers left
without cleanup are those that were registered during the teardown and were in the
collection when it was dropped. -/
theorem teardown_spec (depth : Nat) (U : Client) (tid : Nat) (sdo : Option signal_data)
    (w : World) (L : Local) (hw : (find_thread_data_by_tid w tid).isSome)
    (hL : L.tdata.tid = tid) :
    ∃ Lf, Frame L Lf ∧
      (mainloop_teardown depth U tid sdo (w.put L)).2 = Lf.tdata.exit_status ∧
      (mainloop_teardown depth U tid sdo (w.put L)).1.log =
        Lf.log ++ [Event.close L.tdata.epoll_fd] ∧
      (mainloop_teardown depth U tid sdo (w.put L)).1.tids = w.tids.erase tid ∧
      invocations Lf.log = invocations L.log ∧
      (∀ base held lo, Accounted base held lo L →
        (registered_blocks Lf.log).Nodup ∧
        (owed Lf.log).Perm (destroyed Lf.log ++ pending (live Lf.tdata) ++ base) ∧
        ∀ x ∈ pending (live Lf.tdata), x ∉ owed L.log) := by
  obtain ⟨L1, e1, r1, q1⟩ := qlifts_teardown_signal depth U tid sdo w L hw hL
  have hL1 : L1.tdata.tid = tid := r1.1.tid.trans hL
  have hq : ∃ L2, queue_destroy depth U tid L1.tdata (w.put L1) = w.put L2 ∧
      Frame L1 L2 ∧ invocations L2.log = invocations L1.log ∧
      ∀ base held lo, Accounted base held lo L1 →
        Accounted base held L1.next_block L2 := by
    unfold queue_destroy
    cases hl : L1.tdata.mainloop_list with
    | none =>
      refine ⟨L1, rfl, frame_refl L1, rfl, fun base held lo a => ?_⟩
      exact ⟨fun d hd => (by simp [live, hl] at hd), le_refl _, a.reg_lt, a.reg_nodup,
        a.perm, a.addr_nodup, a.addr_heap, a.held_nodup, a.held_heap, a.held_live⟩
    | some l =>
      simp only [store_put]
      obtain ⟨L2, e2, f2, i2, a2⟩ := destroy_all_put depth U tid l w
        { L1 with tdata := { L1.tdata with mainloop_list := some [] } } hw hL1
      refine ⟨L2, e2, frame_trans ?_ f2, i2, fun base held lo a => ?_⟩
      · exact ⟨rfl, rfl, rfl, [], by simp, rfl, rfl, fun d hd => (by cases hd)⟩
      · exact a2 base held L1.next_block (accounted_detach base held lo L1 l hl a)
  obtain ⟨L2, e2, f2, i2, a2⟩ := hq
  have hL2 : L2.tdata.tid = tid := f2.tid.trans hL1
  have hfind1 : find_thread_data_by_tid (w.put L1) tid = some L1.tdata :=
    find_put_tid hw hL1
  have hfind2 : find_thread_data_by_tid (w.put L2) tid = some L2.tdata :=
    find_put_tid hw hL2
  have hres : mainloop_teardown depth U tid sdo (w.put L) =
      (World.mk
        (queue_remove (w.put (Local.mk { L2.tdata with mainloop_list := none, epoll_fd := 0 }
          L2.interest L2.heap L2.next_block L2.log)).threads_data (match_tid tid))
        (L2.interest.filter
          (fun i => !(i.fd == L2.tdata.epoll_fd || i.epfd == L2.tdata.epoll_fd)))
        L2.heap L2.next_block (L2.log ++ [Event.close L2.tdata.epoll_fd]),
       L2.tdata.exit_status) := by
    unfold mainloop_teardown
    simp only at e1
    simp only [e1, hfind1, e2, hfind2, store_put, close_put]
    rfl
  refine ⟨L2, frame_trans r1.1 f2, ?_, ?_, ?_, i2.trans q1, fun base held lo a => ?_⟩
  · rw [hres]
  · rw [hres]
    simp only
    rw [f2.epoll_fd, r1.1.epoll_fd]
  · rw [hres]
    have := tids_queue_remove (w.put (Local.mk
      { L2.tdata with mainloop_list := none, epoll_fd := 0 }
      L2.interest L2.heap L2.next_block L2.log)) tid
    rw [tids_put] at this
    rw [← this]
    rfl
  · have a1 := r1.2 base held lo a
    obtain ⟨new1, hnew1, _⟩ := r1.1.log
    have hold : ∀ x ∈ owed L.log, x.1 < L1.next_block := by
      intro x hx
      apply a1.reg_lt
      apply owed_block_registered
      rw [hnew1, owed_append]
      exact List.mem_append_left _ hx
    have a3 := a2 base held lo a1
    refine ⟨a3.reg_nodup, a3.perm, fun x hx hxo => ?_⟩
    obtain ⟨d, hd, hb⟩ := pending_block hx
    have h1 := hold x hxo
    have h2 := a3.live_ge d hd
    omega

/-! ## The run -/

theorem run_loop_put (depth : Nat) (U : Client) (tid : Nat) (sdo : Option signal_data)
    (ws : List Wait) (w : World) (L : Local) (hw : (find_thread_data_by_tid w tid).isSome)
    (hL : L.tdata.tid = tid) :
    mainloop_run_loop depth U tid sdo ws (w.put L) =
      run_after depth U tid sdo (mainloop_loop depth U tid ws
        (w.put { L with tdata := { L.tdata with exit_status := EXIT_SUCCESS } })) := by
  subst hL
  unfold mainloop_run_loop run_after
  simp only [find_put hw, store_put]

/-- Without signal watcher `mainloop_run` resets the exit status and enters the
loop. -/
theorem run_no_signal (depth : Nat) (U : Client) (env : RunEnv) (tid : Nat) (w : World)
    (L : Local) (hw : (find_thread_data_by_tid w tid).isSome) (hL : L.tdata.tid = tid)
    (hsig : L.tdata.signal_data = none) (ws : List Wait) :
    mainloop_run depth U env tid ws (w.put L) =
      run_after depth U tid none (mainloop_loop depth U tid ws
        (w.put { L with tdata := { L.tdata with exit_status := EXIT_SUCCESS } })) := by
  have hfind : find_thread_data_by_tid (w.put L) tid = some L.tdata := find_put_tid hw hL
  have h := run_loop_put depth U tid none ws w L hw hL
  unfold mainloop_run
  simp only [hfind, hsig] at h ⊢
  exact h

/-- The two ways `mainloop_run` starts on an initialized thread, whatever the waits:
the activation of the signal watcher fails and `EXIT_FAILURE` is returned, or the
loop is entered with the exit status reset. -/
theorem run_cases (depth : Nat) (U : Client) (env : RunEnv) (tid : Nat) (w : World)
    (tdata : thread_data) (hinit : find_thread_data_by_tid w tid = some tdata) :
    (∃ L', L'.tdata.tid = tid ∧
      ∀ ws, mainloop_run depth U env tid ws w = RunResult.failed (w.put L')) ∨
    (∃ sdo L2, L2.tdata.tid = tid ∧
      (∀ base held lo, Accounted base held lo (w.view tdata) → Accounted base held lo L2) ∧
      (∃ new, L2.log = w.log ++ new) ∧
      (tdata.signal_data = none → sdo = none ∧ L2.log = w.log ∧
        L2.tdata.epoll_terminate = tdata.epoll_terminate) ∧
      L2.tdata.exit_status = EXIT_SUCCESS ∧
      ∀ ws, mainloop_run depth U env tid ws w =
        run_after depth U tid sdo (mainloop_loop depth U tid ws (w.put L2))) := by
  have hw : (find_thread_data_by_tid w tid).isSome := by rw [hinit]; rfl
  have htid : tdata.tid = tid := find_tid hinit
  cases hsig : tdata.signal_data with
  | none =>
    right
    refine ⟨none, { (w.view tdata) with
      tdata := { tdata with exit_status := EXIT_SUCCESS } }, htid, ?_, ⟨[], by simp [World.view]⟩,
      ?_, rfl, ?_⟩
    · exact fun base held lo => accounted_of_live base held lo (w.view tdata) _ rfl rfl
        (le_refl _) rfl
    · intro _; exact ⟨rfl, rfl, rfl⟩
    · intro ws
      unfold mainloop_run
      simp only [hinit, hsig]
      have := run_loop_put depth U tid none ws w (w.view tdata) hw htid
      rw [put_view hinit] at this
      simp only [World.view, hsig] at this ⊢
      exact this
  | some sd =>
    by_cases hmask : env.sigprocmask < 0
    · left
      refine ⟨w.view tdata, htid, fun ws => ?_⟩
      unfold mainloop_run mainloop_activate
      simp only [hinit, hsig, hmask, if_true]
      rw [put_view hinit]
    · have hstore : w.store { tdata with signal_data := some { sd with fd := env.signalfd } } =
          w.put { (w.view tdata) with
            tdata := { tdata with signal_data := some { sd with fd := env.signalfd } } } := by
        have := store_put w (w.view tdata)
          { tdata with signal_data := some { sd with fd := env.signalfd } } rfl
        rw [put_view hinit] at this
        exact this
      by_cases hfd : env.signalfd < 0
      · left
        refine ⟨{ (w.view tdata) with
            tdata := { tdata with signal_data := some { sd with fd := env.signalfd } } },
          htid, fun ws => ?_⟩
        unfold mainloop_run mainloop_activate
        simp only [hinit, hsig, hmask, if_false, hfd, if_true]
        rw [hstore]
      · obtain ⟨L1, e1, r1, _⟩ := add_fd_rel w
          { (w.view tdata) with
            tdata := { tdata with signal_data := some { sd with fd := env.signalfd } } }
          tid env.add env.signalfd EPOLLIN (some Callback.signal_callback) 0 none hw htid
        have hL1 : L1.tdata.tid = tid := r1.1.tid.trans htid
        by_cases hadd : (mainloop_add_fd env.add tid env.signalfd EPOLLIN
            (some Callback.signal_callback) 0 none
            (w.store { tdata with
              signal_data := some { sd with fd := env.signalfd } })).2 < 0
        · left
          obtain ⟨L3, e3, r3, _⟩ := qlifts_close tid env.signalfd w L1 hw hL1
          refine ⟨L3, r3.1.tid.trans hL1, fun ws => ?_⟩
          unfold mainloop_run mainloop_activate
          simp only [hinit, hsig, hmask, if_false, hfd, hadd, if_true]
          rw [hstore, e1, e3]
        · right
          obtain ⟨new1, hnew1, _⟩ := r1.1.log
          refine ⟨some { sd with fd := env.signalfd },
            { L1 with tdata := { L1.tdata with exit_status := EXIT_SUCCESS } }, hL1, ?_,
            ⟨new1, hnew1⟩, ?_, rfl, fun ws => ?_⟩
          · intro base held lo a
            have a0 : Accounted base held lo { (w.view tdata) with
                tdata := { tdata with
                  signal_data := some { sd with fd := env.signalfd } } } :=
              accounted_of_live base held lo (w.view tdata) _ rfl rfl (le_refl _) rfl a
            exact accounted_of_live base held lo L1 _ rfl rfl (le_refl _) rfl
              (r1.2 base held lo a0)
          · intro h; cases h
          · unfold mainloop_run mainloop_activate
            simp only [hinit, hsig, hmask, if_false, hfd, hadd]
            rw [hstore, e1]
            exact run_loop_put depth U tid _ ws w L1 hw hL1

theorem terminate_after_ne_zero (t : Int) (new : List Event) (h : t ≠ 0) :
    terminate_after t new ≠ 0 := by
  induction new generalizing t with
  | nil => exact h
  | cons e new ih =>
    simp only [terminate_after, List.foldl] at ih ⊢
    cases e <;> first | exact ih _ h | exact ih 1 (by decide)

theorem exit_after_success (new : List Event)
    (h : ∀ e ∈ new, e ≠ Event.ctl Ctl.exit_failure) :
    exit_after EXIT_SUCCESS new = EXIT_SUCCESS := by
  induction new with
  | nil => rfl
  | cons e new ih =>
    have ih' := ih (fun x hx => h x (List.mem_cons_of_mem _ hx))
    have he := h e (List.mem_cons_self _ _)
    simp only [exit_after, List.foldl] at ih' ⊢
    cases e with
    | ctl c =>
      cases c with
      | quit => exact ih'
      | exit_success => exact ih'
      | exit_failure => exact absurd rfl he
    | _ => exact ih'

theorem exit_after_failure (new : List Event)
    (h : ∀ e ∈ new, e ≠ Event.ctl Ctl.exit_success) :
    exit_after EXIT_FAILURE new = EXIT_FAILURE := by
  induction new with
  | nil => rfl
  | cons e new ih =>
    have ih' := ih (fun x hx => h x (List.mem_cons_of_mem _ hx))
    have he := h e (List.mem_cons_self _ _)
    simp only [exit_after, List.foldl] at ih' ⊢
    cases e with
    | ctl c =>
      cases c with
      | quit => exact ih'
      | exit_success => exact absurd rfl he
      | exit_failure => exact ih'
    | _ => exact ih'

theorem not_mem_tids_of_find_none {w : World} {tid : Nat}
    (h : find_thread_data_by_tid w tid = none) : tid ∉ w.tids := by
  unfold find_thread_data_by_tid queue_find at h
  unfold World.tids
  cases hq : w.threads_data with
  | none => simp
  | some l =>
    simp only [hq] at h
    intro hm
    obtain ⟨t, ht, htt⟩ := List.mem_map.mp hm
    have := List.find?_eq_none.mp h t ht
    simp [match_tid, htt] at this

theorem find_none_of_not_mem_tids {w : World} {tid : Nat} (h : tid ∉ w.tids) :
    find_thread_data_by_tid w tid = none := by
  unfold find_thread_data_by_tid queue_find
  unfold World.tids at h
  cases hq : w.threads_data with
  | none => rfl
  | some l =>
    simp only [hq] at h
    simp only
    apply List.find?_eq_none.mpr
    intro t ht hm
    apply h
    exact List.mem_map.mpr ⟨t, ht, by simpa [match_tid] using hm⟩

theorem find_none_of_erase {w' : World} {tids : List Nat} {tid : Nat}
    (h : w'.tids = tids.erase tid) (hnd : tids.Nodup) :
    find_thread_data_by_tid w' tid = none := by
  apply find_none_of_not_mem_tids
  rw [h]
  exact fun hm => (List.Nodup.mem_erase_iff hnd).mp hm |>.1 rfl

/-! ## Leaving the loop -/

/-- C10 as stated fails: thread 1 has a context without signal watcher and one
watcher whose cleanup callback calls `mainloop_exit_failure`; after
`mainloop_quit`, `mainloop_run` waits for nothing, dispatches nothing, and returns
`EXIT_FAILURE`, the status set during the teardown. -/
theorem quit_before_run_counterexample :
    (find_thread_data_by_tid (mainloop_quit 1 sample_watched) 1).map
        (fun t => t.signal_data) = some none ∧
      (mainloop_run 1 Client.failing_cleanup RunEnv.good 1 [] (mainloop_quit 1
        sample_watched)).status = some EXIT_FAILURE ∧
      EXIT_FAILURE ≠ EXIT_SUCCESS := by
  decide

/-- C10, amended: for an initialized context with no signal watcher configured, if
`mainloop_quit`, `mainloop_exit_success` or `mainloop_exit_failure` is called before
`mainloop_run` (other watcher calls may follow), then `mainloop_run` performs no
wait and dispatches no event callback, tears the context down, removing it from the
registry, and returns `EXIT_SUCCESS` unless a cleanup callback invoked during the
teardown calls `mainloop_exit_failure`. -/
theorem run_after_termination_request (depth : Nat) (U : Client) (env : RunEnv) (tid : Nat)
    (c : Ctl) (s : List Call) (waits : List Wait) (w : World) (tdata : thread_data)
    (hinit : find_thread_data_by_tid w tid = some tdata)
    (hsig : tdata.signal_data = none) :
    ∃ status w',
      mainloop_run depth U env tid waits (run_script depth U tid s (do_ctl tid c w)) =
        RunResult.exited status w' waits ∧
      invocations w'.log = invocations (run_script depth U tid s (do_ctl tid c w)).log ∧
      w'.tids = w.tids.erase tid ∧
      (w.tids.Nodup → find_thread_data_by_tid w' tid = none) ∧
      ((∀ e ∈ w'.log.drop (run_script depth U tid s (do_ctl tid c w)).log.length,
          e ≠ Event.ctl Ctl.exit_failure) → status = EXIT_SUCCESS) := by
  have hw : (find_thread_data_by_tid w tid).isSome := by rw [hinit]; rfl
  have htid : tdata.tid = tid := find_tid hinit
  have ea := do_ctl_put w (w.view tdata) tid c hw htid
  rw [put_view hinit] at ea
  have hLa : (c.apply tdata).tid = tid := (ctl_apply_tid c tdata).trans htid
  obtain ⟨Lb, eb, rb⟩ := lifts_run_script depth U tid s w
    (Local.mk (c.apply tdata) w.interest w.heap w.next_block (w.log ++ [Event.ctl c])) hw hLa
  have hLb : Lb.tdata.tid = tid := rb.1.tid.trans hLa
  have eb' : run_script depth U tid s (do_ctl tid c w) = w.put Lb := by rw [ea]; exact eb
  rw [eb']
  -- the termination flag is set and stays set
  have hta : (c.apply tdata).epoll_terminate ≠ 0 := by
    cases c <;> exact one_ne_zero
  have htb : Lb.tdata.epoll_terminate ≠ 0 := by
    obtain ⟨new, _, _, ht, _⟩ := rb.1.log
    rw [ht]
    exact terminate_after_ne_zero _ _ hta
  have hsb : Lb.tdata.signal_data = none := by
    rw [rb.1.signal_data]
    cases c <;> exact hsig
  obtain ⟨L2, h2⟩ : ∃ L2 : Local,
      L2 = { Lb with tdata := { Lb.tdata with exit_status := EXIT_SUCCESS } } := ⟨_, rfl⟩
  have hL2 : L2.tdata.tid = tid := by rw [h2]; exact hLb
  have hlog2 : L2.log = Lb.log := by rw [h2]
  have hst2 : L2.tdata.exit_status = EXIT_SUCCESS := by rw [h2]
  have hterm2 : terminated tid (w.put L2) = true := by
    rw [terminated_put w L2 tid hw hL2, h2]
    simpa using htb
  have hrun := run_no_signal depth U env tid w Lb hw hLb hsb waits
  rw [← h2, loop_terminated depth U tid waits _ hterm2] at hrun
  obtain ⟨Lf, ff, hs, hl, ht, hi, _⟩ := teardown_spec depth U tid none w L2 hw hL2
  refine ⟨(mainloop_teardown depth U tid none (w.put L2)).2,
    (mainloop_teardown depth U tid none (w.put L2)).1, hrun, ?_, ht, ?_, ?_⟩
  · rw [hl, invocations_append, hi, hlog2]
    simp [invocations]
  · exact fun hnd => find_none_of_erase ht hnd
  · intro hno
    rw [hs]
    obtain ⟨new, hnew, hex, _⟩ := ff.log
    rw [hex, hst2]
    apply exit_after_success
    intro e he
    apply hno
    rw [hl, hnew, put_log, hlog2, List.append_assoc, List.drop_left]
    exact List.mem_append_left _ he

/-- Witness of the amended C10: `mainloop_exit_failure` before the run of a context
with one watcher. -/
theorem run_after_termination_request_witness :
    ∃ status w',
      mainloop_run 1 Client.idle RunEnv.good 1 [Wait.error]
          (run_script 1 Client.idle 1 [] (do_ctl 1 Ctl.exit_failure sample_watched)) =
        RunResult.exited status w' [Wait.error] ∧
      invocations w'.log =
        invocations (run_script 1 Client.idle 1 [] (do_ctl 1 Ctl.exit_failure
          sample_watched)).log ∧
      w'.tids = sample_watched.tids.erase 1 ∧
      (sample_watched.tids.Nodup → find_thread_data_by_tid w' 1 = none) ∧
      ((∀ e ∈ w'.log.drop (run_script 1 Client.idle 1 [] (do_ctl 1 Ctl.exit_failure
          sample_watched)).log.length, e ≠ Event.ctl Ctl.exit_failure) →
        status = EXIT_SUCCESS) :=
  run_after_termination_request 1 Client.idle RunEnv.good 1 Ctl.exit_failure [] [Wait.error]
    sample_watched
    { tid := 1, epoll_fd := 3, epoll_terminate := 0, exit_status := 0,
      mainloop_list := some [mainloop_data.mk 0 0 4 EPOLLIN (Callback.user 0) (some 7) 9 3],
      signal_data := none }
    rfl rfl

/-! ## A batch in which `mainloop_exit_failure` is called -/

/-- An event that the kernel reports with the address of a watcher removed
meanwhile is dispatched to the watcher that `malloc` placed at that address: the
callback of descriptor 4 removes descriptor 5 and registers descriptor 6 at the
address freed, and the event reported for descriptor 5 in the same batch invokes the
callback of descriptor 6. -/
theorem stale_event_reaches_new_watcher :
    (dispatch_batch 1 Client.reusing 1 [epoll_event.mk EPOLLIN 0, epoll_event.mk EPOLLIN 1]
        sample_two).log =
      [Event.registered 0 4 (some 7) 9, Event.registered 1 5 none 11,
        Event.invoke (Callback.user 0) 4 EPOLLIN 9, Event.registered 2 6 none 12,
        Event.invoke (Callback.user 2) 6 EPOLLIN 12] := by
  decide

/-- C3 as stated fails: the callback of the only ready event calls
`mainloop_exit_failure` and nothing in the batch calls `mainloop_exit_success`, yet
`mainloop_run` returns `EXIT_SUCCESS`, because the cleanup callback run by the
teardown calls `mainloop_exit_success` before the exit status is read. -/
theorem exit_failure_in_batch_counterexample :
    mainloop_run 1 Client.late_success RunEnv.good 1
        [Wait.ready [epoll_event.mk EPOLLIN 0]] sample_watched =
      RunResult.exited EXIT_SUCCESS
        { threads_data := some [], interest := [], heap := [], next_block := 1,
          log := [Event.registered 0 4 (some 7) 9, Event.invoke (Callback.user 0) 4 EPOLLIN 9,
            Event.ctl Ctl.exit_failure, Event.destroy 0 7 9, Event.ctl Ctl.exit_success,
            Event.close 3] } [] ∧
      (dispatch_batch 1 Client.late_success 1 [epoll_event.mk EPOLLIN 0] sample_watched).log =
        [Event.registered 0 4 (some 7) 9, Event.invoke (Callback.user 0) 4 EPOLLIN 9,
          Event.ctl Ctl.exit_failure] ∧
      EXIT_SUCCESS ≠ EXIT_FAILURE := by
  decide

/-- C3, amended: when `mainloop_run` is blocked in a wait and the wait returns a
batch in whose dispatch `mainloop_exit_failure` is called with no later call of
`mainloop_exit_success` in the batch, then every event of the batch whose address is
that of a watcher in the collection at its turn has the callback of that watcher
invoked, no further wait is performed, the context is torn down, leaving the
registry, and `mainloop_run` returns `EXIT_FAILURE`, unless a cleanup callback
invoked during the teardown calls `mainloop_exit_success`. -/
theorem exit_failure_in_batch (depth : Nat) (U : Client) (env : RunEnv) (tid : Nat)
    (pre : List Wait) (batch : List epoll_event) (rest : List Wait) (w w3 : World)
    (e1 e2 : List Event)
    (hblocked : mainloop_run depth U env tid pre w = RunResult.blocked w3)
    (hfail : (dispatch_batch depth U tid (batch.take MAX_EPOLL_EVENTS) w3).log =
      w3.log ++ e1 ++ Event.ctl Ctl.exit_failure :: e2)
    (hlater : ∀ e ∈ e2, e ≠ Event.ctl Ctl.exit_success) :
    ∃ status w',
      mainloop_run depth U env tid (pre ++ Wait.ready batch :: rest) w =
        RunResult.exited status w' rest ∧
      (∀ b1 ev b2 d, batch.take MAX_EPOLL_EVENTS = b1 ++ ev :: b2 →
        (find_thread_data_by_tid (dispatch_batch depth U tid b1 w3) tid).bind
          (fun t => queue_find t.mainloop_list (same_addr ev.data)) = some d →
        ∃ tail, w'.log = (dispatch_batch depth U tid b1 w3).log ++
          Event.invoke d.callback d.fd ev.events d.user_data :: tail) ∧
      w'.tids = w3.tids.erase tid ∧
      (w3.tids.Nodup → find_thread_data_by_tid w' tid = none) ∧
      (∀ t3, find_thread_data_by_tid w3 tid = some t3 →
        ∃ lg, w'.log = lg ++ [Event.close t3.epoll_fd]) ∧
      ((∀ e ∈ w'.log.drop (dispatch_batch depth U tid (batch.take MAX_EPOLL_EVENTS)
            w3).log.length,
          e ≠ Event.ctl Ctl.exit_success) → status = EXIT_FAILURE) := by
  cases hinit : find_thread_data_by_tid w tid with
  | none =>
    unfold mainloop_run at hblocked
    simp only [hinit] at hblocked
    cases hblocked
  | some tdata =>
    have hw : (find_thread_data_by_tid w tid).isSome := by rw [hinit]; rfl
    rcases run_cases depth U env tid w tdata hinit with
      ⟨L', _, hf⟩ | ⟨sdo, L2, hL2, _, _, _, _, hrun⟩
    · rw [hf pre] at hblocked; cases hblocked
    · -- the run is blocked in the state `w.put L3`
      rw [hrun pre] at hblocked
      rcases loop_put depth U tid pre w L2 hw hL2 with
        ⟨Ld, r, ed, _, _⟩ | ⟨L3, e3, r3, t3⟩
      · rw [ed] at hblocked; cases hblocked
      · have hw3 : w3 = w.put L3 := by
          rw [e3] at hblocked
          simp only [run_after] at hblocked
          injection hblocked with h
          exact h.symm
        subst hw3
        have hL3 : L3.tdata.tid = tid := r3.1.tid.trans hL2
        -- the batch is dispatched in full
        obtain ⟨L4, e4, r4⟩ := lifts_dispatch_batch depth U tid
          (batch.take MAX_EPOLL_EVENTS) w L3 hw hL3
        have hL4 : L4.tdata.tid = tid := r4.1.tid.trans hL3
        obtain ⟨new4, hnew4, hex4, hte4, _⟩ := r4.1.log
        have hnew : new4 = e1 ++ Event.ctl Ctl.exit_failure :: e2 := by
          rw [e4, put_log, put_log, hnew4, List.append_assoc] at hfail
          exact List.append_cancel_left hfail
        have hstatus4 : L4.tdata.exit_status = EXIT_FAILURE := by
          rw [hex4, hnew, exit_after_append]
          exact exit_after_failure e2 hlater
        have hterm4 : terminated tid (w.put L4) = true := by
          rw [terminated_put w L4 tid hw hL4, hte4, hnew, terminate_after_append]
          have := terminate_after_ne_zero 1 e2 one_ne_zero
          simpa [terminate_after] using this
        have hloop : mainloop_loop depth U tid (pre ++ Wait.ready batch :: rest)
            (w.put L2) = LoopResult.done (w.put L4) rest := by
          rw [loop_append depth U tid pre _ _ _ e3]
          have hrun3 : terminated tid (w.put L3) = false := by
            rw [terminated_put w L3 tid hw hL3, t3]; rfl
          simp only [mainloop_loop, hrun3, Bool.false_eq_true, if_false, epoll_wait]
          have hnn : ¬ (((batch.take MAX_EPOLL_EVENTS).length : Nat) : Int) < 0 :=
            not_lt.mpr (Int.natCast_nonneg _)
          simp only [hnn, if_false, e4]
          exact loop_terminated depth U tid rest _ hterm4
        obtain ⟨Lf, ff, hs, hl, htids, _, _⟩ := teardown_spec depth U tid sdo w L4 hw hL4
        obtain ⟨newT, hnewT, hexT, _⟩ := ff.log
        have htids3 : (mainloop_teardown depth U tid sdo (w.put L4)).1.tids =
            (w.put L3).tids.erase tid := by rw [htids, tids_put]
        refine ⟨(mainloop_teardown depth U tid sdo (w.put L4)).2,
          (mainloop_teardown depth U tid sdo (w.put L4)).1, ?_, ?_, htids3,
          fun hnd => find_none_of_erase htids3 hnd, ?_, ?_⟩
        · rw [hrun, hloop]
          rfl
        · intro b1 ev b2 d hsplit hfound
          obtain ⟨Lb, eb, hLb, _⟩ := lifts_log (lifts_dispatch_batch depth U tid b1) w L3 hw
            hL3
          rw [eb] at hfound ⊢
          obtain ⟨Lc, ec, hLc, tailc, hlc⟩ := call_callback_log depth U tid d ev.events w Lb
            hw hLb
          obtain ⟨Ld, ed, _, newd, hld⟩ := lifts_log (lifts_dispatch_batch depth U tid b2) w
            Lc hw hLc
          have hall : dispatch_batch depth U tid (batch.take MAX_EPOLL_EVENTS) (w.put L3) =
              w.put Ld := by
            have hde : dispatch_event depth U tid ev (w.put Lb) = w.put Lc := by
              unfold dispatch_event
              simp only [hfound]
              exact ec
            rw [hsplit]
            simp only [dispatch_batch, List.foldl_append, List.foldl_cons] at eb ed ⊢
            rw [eb, hde, ed]
          have h4d : L4.log = Ld.log := by
            have := congrArg World.log (e4.symm.trans hall)
            simpa only [put_log] using this
          refine ⟨tailc ++ newd ++ newT ++ [Event.close L4.tdata.epoll_fd], ?_⟩
          rw [hl, hnewT, h4d, hld, hlc, put_log]
          simp only [List.append_assoc, List.cons_append]
        · intro t3 ht3
          rw [find_put_tid hw hL3] at ht3
          injection ht3 with ht3
          refine ⟨Lf.log, ?_⟩
          rw [hl, r4.1.epoll_fd, ht3]
        · intro hno
          rw [hs, hexT, hstatus4]
          apply exit_after_failure
          intro e he
          apply hno
          rw [hl, hnewT, e4, put_log, List.append_assoc, List.drop_left]
          exact List.mem_append_left _ he

/-- Witness of the amended C3: thread 1 watches descriptors 4 and 5 and is blocked
in the wait; the wait reports both, the callback of descriptor 4 calls
`mainloop_exit_failure`, the callback of descriptor 5 is still invoked, and
`mainloop_run` returns `EXIT_FAILURE` with the context out of the registry. -/
theorem exit_failure_in_batch_witness :
    mainloop_run 1 Client.failing_event RunEnv.good 1
        ([] ++ Wait.ready [epoll_event.mk EPOLLIN 0, epoll_event.mk EPOLLIN 1] ::
          [Wait.error]) sample_two =
      RunResult.exited EXIT_FAILURE
        { threads_data := some [], interest := [], heap := [], next_block := 2,
          log := [Event.registered 0 4 (some 7) 9, Event.registered 1 5 none 11,
            Event.invoke (Callback.user 0) 4 EPOLLIN 9, Event.ctl Ctl.exit_failure,
            Event.invoke (Callback.user 1) 5 EPOLLIN 11, Event.destroy 0 7 9,
            Event.close 3] } [Wait.error] ∧
    ∃ status w',
      mainloop_run 1 Client.failing_event RunEnv.good 1
          ([] ++ Wait.ready [epoll_event.mk EPOLLIN 0, epoll_event.mk EPOLLIN 1] ::
            [Wait.error]) sample_two =
        RunResult.exited status w' [Wait.error] ∧
      (∀ b1 ev b2 d,
        [epoll_event.mk EPOLLIN 0, epoll_event.mk EPOLLIN 1].take MAX_EPOLL_EVENTS =
          b1 ++ ev :: b2 →
        (find_thread_data_by_tid (dispatch_batch 1 Client.failing_event 1 b1 sample_two)
            1).bind
          (fun t => queue_find t.mainloop_list (same_addr ev.data)) = some d →
        ∃ tail, w'.log = (dispatch_batch 1 Client.failing_event 1 b1 sample_two).log ++
          Event.invoke d.callback d.fd ev.events d.user_data :: tail) ∧
      w'.tids = sample_two.tids.erase 1 ∧
      (sample_two.tids.Nodup → find_thread_data_by_tid w' 1 = none) ∧
      (∀ t3, find_thread_data_by_tid sample_two 1 = some t3 →
        ∃ lg, w'.log = lg ++ [Event.close t3.epoll_fd]) ∧
      ((∀ e ∈ w'.log.drop (dispatch_batch 1 Client.failing_event 1
            ([epoll_event.mk EPOLLIN 0, epoll_event.mk EPOLLIN 1].take MAX_EPOLL_EVENTS)
            sample_two).log.length,
          e ≠ Event.ctl Ctl.exit_success) → status = EXIT_FAILURE) :=
  ⟨by decide,
   exit_failure_in_batch 1 Client.failing_event RunEnv.good 1 []
    [epoll_event.mk EPOLLIN 0, epoll_event.mk EPOLLIN 1] [Wait.error] sample_two sample_two
    [Event.invoke (Callback.user 0) 4 EPOLLIN 9] [Event.invoke (Callback.user 1) 5 EPOLLIN 11]
    (by decide) (by decide) (by decide)⟩

/-! ## Exactly-once cleanup -/

theorem times_append (x : Nat × Nat × Nat) (a b : List (Nat × Nat × Nat)) :
    times x (a ++ b) = times x a + times x b := by
  simp [times, List.filter_append]

theorem times_of_nodup (x : Nat × Nat × Nat) (o : List (Nat × Nat × Nat)) (hn : o.Nodup) :
    times x o = if x ∈ o then 1 else 0 := by
  induction o with
  | nil => rfl
  | cons a o ih =>
    simp only [List.nodup_cons] at hn
    by_cases ha : a = x
    · subst ha
      have h0 : times a o = 0 := by
        rw [ih hn.2]
        simp [hn.1]
      simp only [times, List.filter_cons, decide_True, if_true, List.length_cons,
        List.mem_cons, true_or] at h0 ⊢
      omega
    · have hx : x ∈ a :: o ↔ x ∈ o := by
        simp only [List.mem_cons]
        constructor
        · rintro (h | h)
          · exact absurd h.symm ha
          · exact h
        · exact Or.inr
      have := ih hn.2
      simp only [times, List.filter_cons, ha, decide_False, hx] at this ⊢
      exact this

theorem times_of_not_mem (x : Nat × Nat × Nat) (l : List (Nat × Nat × Nat)) (h : x ∉ l) :
    times x l = 0 := by
  simp only [times, List.length_eq_zero, List.filter_eq_nil_iff, decide_eq_true_eq]
  intro a ha hax
  exact h (hax ▸ ha)

theorem times_pos_of_mem (x : Nat × Nat × Nat) (l : List (Nat × Nat × Nat)) (h : x ∈ l) :
    1 ≤ times x l := by
  by_contra hc
  have h0 : times x l = 0 := by omega
  simp only [times, List.length_eq_zero, List.filter_eq_nil_iff, decide_eq_true_eq] at h0
  exact h0 x h rfl

theorem times_of_accounts (o d : List (Nat × Nat × Nat)) (hp : o.Perm d) (hn : o.Nodup)
    (x : Nat × Nat × Nat) : times x d = if x ∈ o then 1 else 0 := by
  rw [← times_of_nodup x o hn]
  exact ((hp.filter _).length_eq).symm

/-- What balanced books say about one cleanup: it is invoked, still to come in the
collection, or in `rest`, exactly one of the three and at most once, if the watcher
was registered with it, and none of them otherwise. -/
theorem times_of_books {lg : List Event} {pend rest : List (Nat × Nat × Nat)}
    (hn : (registered_blocks lg).Nodup)
    (hp : (owed lg).Perm (destroyed lg ++ pend ++ rest)) (x : Nat × Nat × Nat) :
    times x (destroyed lg) + times x pend + times x rest = if x ∈ owed lg then 1 else 0 := by
  have h := times_of_accounts _ _ hp (owed_nodup hn) x
  rw [times_append, times_append] at h
  exact h

theorem destroyed_close (lg : List Event) (fd : Int) :
    destroyed (lg ++ [Event.close fd]) = destroyed lg := by
  simp [destroyed]

theorem owed_close (lg : List Event) (fd : Int) :
    owed (lg ++ [Event.close fd]) = owed lg := by
  simp [owed]

/-- C4 as stated fails: the cleanup callback of the watcher of descriptor 4, run by
the teardown of `mainloop_run`, registers a watcher with cleanup callback 8 and user
data 10; `mainloop_add_fd` returns 0 for it (the registration is in the trace), the
collection is dropped right after, and that cleanup is never invoked. -/
theorem cleanup_exactly_once_counterexample :
    mainloop_run 1 Client.registering_cleanup RunEnv.good 1 [] (mainloop_quit 1
        sample_watched) =
      RunResult.exited EXIT_SUCCESS
        { threads_data := some [], interest := [], heap := [1], next_block := 2,
          log := [Event.registered 0 4 (some 7) 9, Event.ctl Ctl.quit, Event.destroy 0 7 9,
            Event.registered 1 4 (some 8) 10, Event.close 3] } [] ∧
      (1, 8, 10) ∈ owed (mainloop_run 1 Client.registering_cleanup RunEnv.good 1 []
        (mainloop_quit 1 sample_watched)).world.log ∧
      times (1, 8, 10) (destroyed (mainloop_run 1 Client.registering_cleanup RunEnv.good 1 []
        (mainloop_quit 1 sample_watched)).world.log) = 0 := by
  decide

/-- C4, amended: in a context whose books balance (as in a fresh context; `base`
lists the watchers of other contexts), (1) after any sequence of interface calls of
the owning thread every watcher of the context registered with a cleanup callback
is either still in the collection or has had its cleanup invoked, exactly one of
the two and the latter once; (2) when `mainloop_run` leaves the loop and tears the
context down, no cleanup has been invoked twice, none has been invoked that was not
registered, and the cleanup of every watcher of the context registered before the
teardown began has been invoked exactly once, so that a cleanup is skipped only for
a watcher that a cleanup callback registered during the teardown; (3) a
`mainloop_add_fd` that returns 0 with a cleanup callback registers such a watcher;
(4) `mainloop_remove_fd` of a registered descriptor returns what `EPOLL_CTL_DEL`
returns, also an error, and in any case takes the watcher out of the collection,
calls its cleanup callback in that state and frees it, the cleanup being invoked
exactly once. -/
theorem cleanup_exactly_once (depth : Nat) (U : Client) (env : RunEnv) (tid : Nat)
    (w : World) (tdata : thread_data) (base : List (Nat × Nat × Nat))
    (hinit : find_thread_data_by_tid w tid = some tdata)
    (hacc : Accounted base [] 0 (w.view tdata)) (s : List Call) (waits : List Wait) :
    (∃ td, find_thread_data_by_tid (run_script depth U tid s w) tid = some td ∧
      ∀ x ∈ owed (run_script depth U tid s w).log, x ∉ base →
        times x (destroyed (run_script depth U tid s w).log) +
          times x (pending (live td)) = 1) ∧
    (∀ status w' rest,
      mainloop_run depth U env tid waits (run_script depth U tid s w) =
        RunResult.exited status w' rest →
      (∀ x, times x (destroyed w'.log) ≤ 1 ∧
        (x ∉ owed w'.log → times x (destroyed w'.log) = 0) ∧
        (x ∉ base → x ∈ owed (run_script depth U tid s w).log →
          times x (destroyed w'.log) = 1)) ∧
      ∃ sdo w2 w3, mainloop_loop depth U tid waits w2 = LoopResult.done w3 rest ∧
        mainloop_teardown depth U tid sdo w3 = (w', status) ∧
        ∀ x, x ∉ base → x ∈ owed w3.log → times x (destroyed w'.log) = 1) ∧
    (∀ aenv fd events cb ud f,
      (mainloop_add_fd aenv tid fd events cb ud (some f) w).2 = 0 →
      owed (mainloop_add_fd aenv tid fd events cb ud (some f) w).1.log =
        owed w.log ++ [(w.next_block, f, ud)]) ∧
    (∀ fd d, 0 ≤ fd → queue_find tdata.mainloop_list (match_by_fd fd) = some d →
      (mainloop_remove_fd depth U tid fd w).2 =
        (epoll_ctl w.interest true tdata.epoll_fd EpollOp.EPOLL_CTL_DEL d.fd 0 0).2 ∧
      (∃ w0, find_thread_data_by_tid w0 tid = some { tdata with
            mainloop_list := queue_remove tdata.mainloop_list (same_addr d.addr) } ∧
          w0.interest =
            (epoll_ctl w.interest true tdata.epoll_fd EpollOp.EPOLL_CTL_DEL d.fd 0 0).1 ∧
          w0.log = w.log ∧
          (mainloop_remove_fd depth U tid fd w).1 =
            free d.addr (call_destroy depth U tid d w0)) ∧
      ∀ f, d.destroy = some f →
        times (d.block, f, d.user_data)
          (destroyed (mainloop_remove_fd depth U tid fd w).1.log) = 1) := by
  have hw : (find_thread_data_by_tid w tid).isSome := by rw [hinit]; rfl
  have htid : tdata.tid = tid := find_tid hinit
  obtain ⟨Ls, es, rs, _⟩ := qlifts_run_script depth U tid s w (w.view tdata) hw htid
  rw [put_view hinit] at es
  have hLs : Ls.tdata.tid = tid := rs.1.tid.trans htid
  have as := rs.2 base [] 0 hacc
  refine ⟨?_, ?_, ?_, ?_⟩
  · refine ⟨Ls.tdata, by rw [es]; exact find_put_tid hw hLs, ?_⟩
    intro x hx hxb
    rw [es, put_log] at hx ⊢
    have h := times_of_books as.reg_nodup as.perm x
    rw [times_of_not_mem x base hxb] at h
    simp only [hx, if_true, Nat.add_zero] at h
    exact h
  · intro status w' rest hrun
    rw [es] at hrun
    rcases run_cases depth U env tid (w.put Ls) Ls.tdata (find_put_tid hw hLs) with
      ⟨L', _, hf⟩ | ⟨sdo, L2, hL2, a2, ⟨new2, hnew2⟩, _, _, hr⟩
    · rw [hf waits] at hrun; cases hrun
    · rw [hr waits, put_put w Ls L2 (hL2.trans hLs.symm)] at hrun
      have a2' : Accounted base [] 0 L2 := a2 base [] 0 as
      rcases loop_put depth U tid waits w L2 hw hL2 with
        ⟨L3, r3, e3, rel3, _⟩ | ⟨L3, e3, _, _⟩
      · rw [e3] at hrun
        simp only [run_after] at hrun
        injection hrun with hst hw' hrest
        obtain ⟨Lf, ff, _, hl, _, _, hfin⟩ := teardown_spec depth U tid sdo w L3 hw
          (rel3.1.tid.trans hL2)
        obtain ⟨hnd, hperm, hleft⟩ := hfin base [] 0 (rel3.2 base [] 0 a2')
        obtain ⟨new3, hnew3, _⟩ := rel3.1.log
        obtain ⟨newf, hnewf, _⟩ := ff.log
        have hbooks := fun x => times_of_books hnd hperm x
        have hdes : destroyed w'.log = destroyed Lf.log := by
          rw [← hw', hl, destroyed_close]
        have howed : owed w'.log = owed Lf.log := by
          rw [← hw', hl, owed_close]
        have hkey : ∀ x, x ∉ base → x ∈ owed L3.log → times x (destroyed w'.log) = 1 := by
          intro x hxb hx3
          have hxf : x ∈ owed Lf.log := by
            rw [hnewf, owed_append]
            exact List.mem_append_left _ hx3
          have h := hbooks x
          rw [times_of_not_mem x base hxb,
            times_of_not_mem x _ (fun hp => hleft x hp hx3)] at h
          simp only [hxf, if_true, Nat.add_zero] at h
          rw [hdes]
          exact h
        refine ⟨fun x => ⟨?_, ?_, ?_⟩, sdo, w.put L2, w.put L3, ?_, ?_, ?_⟩
        · have h := hbooks x
          rw [hdes]
          split at h <;> omega
        · intro hx
          rw [howed] at hx
          have h := hbooks x
          simp only [hx, if_false] at h
          rw [hdes]
          omega
        · intro hxb hxs
          rw [es, put_log] at hxs
          apply hkey x hxb
          rw [hnew3, hnew2, put_log, owed_append, owed_append]
          exact List.mem_append_left _ (List.mem_append_left _ hxs)
        · rw [e3, hrest]
        · rw [← hw', ← hst]
        · intro x hxb hx3
          exact hkey x hxb (by rw [put_log] at hx3; exact hx3)
      · rw [e3] at hrun; cases hrun
  · intro aenv fd events cb ud f h0
    have hcases := add_fd_put_cases w (w.view tdata) tid aenv fd events cb ud (some f) hw htid
    rw [put_view hinit] at hcases
    rcases hcases with ⟨n, r, _, hr, h⟩ | ⟨l, c, _, h⟩
    · rw [h] at h0
      simp only at h0
      rw [h0] at hr
      exact absurd hr (by decide)
    · rw [h]
      simp only [put_log, World.view, owed_append]
      rfl
  · intro fd d hfd hfind
    have h := remove_fd_with_put_found (call_destroy depth U tid) w (w.view tdata) tid fd d hw
      htid hfd hfind
    rw [put_view hinit] at h
    have hrem : mainloop_remove_fd depth U tid fd w =
        (free d.addr (call_destroy depth U tid d (w.put ((w.view tdata).without d.addr
          (epoll_ctl w.interest true tdata.epoll_fd EpollOp.EPOLL_CTL_DEL d.fd 0 0).1))),
         (epoll_ctl w.interest true tdata.epoll_fd EpollOp.EPOLL_CTL_DEL d.fd 0 0).2) := h
    obtain ⟨l, hl, hd⟩ := mem_of_queue_find hfind
    have hdl : d ∈ live (w.view tdata).tdata := by simp only [live, World.view, hl]; exact hd
    obtain ⟨L2, e2, _, _, hlog2, a2⟩ := cleans_call_destroy depth U tid d w
      ((w.view tdata).without d.addr
        (epoll_ctl w.interest true tdata.epoll_fd EpollOp.EPOLL_CTL_DEL d.fd 0 0).1) hw htid
    rw [hrem]
    refine ⟨rfl, ⟨w.put ((w.view tdata).without d.addr
      (epoll_ctl w.interest true tdata.epoll_fd EpollOp.EPOLL_CTL_DEL d.fd 0 0).1),
      find_put_tid hw htid, rfl, rfl, rfl⟩, ?_⟩
    intro f hf
    simp only
    rw [e2, free_put, put_log]
    have a3 := accounted_free base [] 0 L2 d.addr
      (a2 base [d.addr] 0 (accounted_without base [] 0 (w.view tdata) d _ hdl hacc))
    obtain ⟨tail, htail⟩ := hlog2 f hf
    have hmem : (d.block, f, d.user_data) ∈ destroyed L2.log := by
      rw [htail, destroyed_append]
      exact List.mem_append_right _ (List.mem_cons_self _ _)
    have h1 := times_pos_of_mem _ _ hmem
    have h2 := times_of_books a3.reg_nodup a3.perm (d.block, f, d.user_data)
    have h3 : times (d.block, f, d.user_data) (destroyed (L2.free d.addr).log) =
        times (d.block, f, d.user_data) (destroyed L2.log) := rfl
    rw [h3] at h2
    split at h2 <;> omega

theorem accounted_sample : Accounted [] [] 0 (sample_world.view sample_tdata) :=
  ⟨fun _ h => (by cases h), le_refl _, fun _ h => (by cases h), List.nodup_nil,
    List.Perm.refl _, List.nodup_nil, fun _ h => (by cases h), List.nodup_nil,
    fun _ h => (by cases h), fun _ h => (by cases h)⟩

/-- Witness of the amended C4: thread 1 registers descriptor 4 with cleanup
callback 7 and user data 9, asks to quit and runs the loop; the cleanup is invoked
once. -/
theorem cleanup_exactly_once_witness :
    times (0, 7, 9) (destroyed (mainloop_run 1 Client.idle RunEnv.good 1 []
      (run_script 1 Client.idle 1
        [Call.add_fd AddEnv.good 4 EPOLLIN (some 0) 9 (some 7), Call.ctl Ctl.quit]
        sample_world)).world.log) = 1 :=
  ((((cleanup_exactly_once 1 Client.idle RunEnv.good 1 sample_world sample_tdata [] rfl
    accounted_sample
    [Call.add_fd AddEnv.good 4 EPOLLIN (some 0) 9 (some 7), Call.ctl Ctl.quit] []).2.1
    _ _ _ rfl).1 (0, 7, 9)).2.2) (fun h => by cases h) (by decide)

/-! ## The registry invariant -/

theorem tids_store (w : World) (t : thread_data) : (w.store t).tids = w.tids := by
  simp only [World.tids, World.store]
  cases w.threads_data with
  | none => rfl
  | some l =>
    simp only [Option.map_some']
    exact replace_first_map_tid _ _

theorem init_tids (env : InitEnv) (tid : Nat) (w w' : World)
    (h : mainloop_init env tid w = some w') :
    w'.tids = w.tids ∨ (tid ∉ w.tids ∧ w'.tids = w.tids ++ [tid]) := by
  unfold mainloop_init at h
  cases hq : w.threads_data with
  | none =>
    simp only [hq, queue_new] at h
    by_cases hr : env.registry_ok = true
    · simp only [hr, if_true, find_thread_data_by_tid, queue_find, List.find?_nil] at h
      by_cases hm : env.malloc_ok = true
      · simp only [hm, Bool.not_true, Bool.false_eq_true, if_false, queue_push_tail] at h
        injection h with h
        subst h
        by_cases hp : env.push_ok = true
        · right
          simp [World.tids, hq, hp]
        · left
          simp [World.tids, hq, hp]
      · simp [hm] at h
    · simp only [hr, Bool.false_eq_true, if_false] at h
      injection h with h
      subst h
      exact Or.inl rfl
  | some l =>
    simp only [hq] at h
    cases hf : find_thread_data_by_tid { w with threads_data := some l } tid with
    | some t =>
      simp only [hf] at h
      injection h with h
      subst h
      left
      simp [World.tids, hq]
    | none =>
      simp only [hf] at h
      have hnot : tid ∉ w.tids := by
        have := not_mem_tids_of_find_none hf
        simpa [World.tids, hq] using this
      by_cases hm : env.malloc_ok = true
      · simp only [hm, Bool.not_true, Bool.false_eq_true, if_false, queue_push_tail] at h
        injection h with h
        subst h
        by_cases hp : env.push_ok = true
        · right
          refine ⟨hnot, ?_⟩
          simp [World.tids, hq, hp]
        · left
          simp [World.tids, hq, hp]
      · simp [hm] at h

theorem do_call_tids (depth : Nat) (U : Client) (tid : Nat) (c : Call) (w : World) :
    (do_call depth U tid c w).tids = w.tids := by
  cases hf : find_thread_data_by_tid w tid with
  | none =>
    have : do_call depth U tid c w = w := by
      cases c with
      | ctl c => cases c <;>
          simp [do_call, do_call_with, do_ctl, mainloop_quit, mainloop_exit_success,
            mainloop_exit_failure, hf]
      | add_fd env fd events callback user_data destroy =>
        simp [do_call, do_call_with, mainloop_add_fd, hf]
      | modify_fd permit fd events => simp [do_call, do_call_with, mainloop_modify_fd, hf]
      | remove_fd fd => simp [do_call, do_call_with, remove_fd_with, hf]
    rw [this]
  | some t =>
    have hw : (find_thread_data_by_tid w tid).isSome := by rw [hf]; rfl
    obtain ⟨L', e, _⟩ := qlifts_do_call depth U tid c w (w.view t) hw (find_tid hf)
    rw [put_view hf] at e
    rw [e, tids_put]

theorem run_tids (depth : Nat) (U : Client) (env : RunEnv) (tid : Nat) (waits : List Wait)
    (w : World) :
    (mainloop_run depth U env tid waits w).world.tids = w.tids ∨
      (mainloop_run depth U env tid waits w).world.tids = w.tids.erase tid := by
  cases hf : find_thread_data_by_tid w tid with
  | none =>
    left
    unfold mainloop_run
    simp only [hf]
    rfl
  | some t =>
    have hw : (find_thread_data_by_tid w tid).isSome := by rw [hf]; rfl
    rcases run_cases depth U env tid w t hf with ⟨L', _, h⟩ | ⟨sdo, L2, hL2, _, _, _, _, h⟩
    · left
      rw [h waits]
      exact tids_put w L'
    · rw [h waits]
      rcases loop_put depth U tid waits w L2 hw hL2 with
        ⟨L3, r, e3, rel3, _⟩ | ⟨L3, e3, _, _⟩
      · right
        rw [e3]
        obtain ⟨_, _, _, _, ht, _, _⟩ := teardown_spec depth U tid sdo w L3 hw
          (rel3.1.tid.trans hL2)
        exact ht
      · left
        rw [e3]
        exact tids_put w L3

theorem set_signal_tids (malloc_ok : Bool) (tid : Nat) (mask callback : Option Nat)
    (user_data : Nat) (destroy : Option Nat) (w : World) :
    (mainloop_set_signal malloc_ok tid mask callback user_data destroy w).1.tids =
      w.tids := by
  unfold mainloop_set_signal
  cases find_thread_data_by_tid w tid with
  | none => rfl
  | some t =>
    cases mask <;> cases callback <;> try rfl
    simp only
    by_cases hm : malloc_ok = true
    · simp only [hm, Bool.not_true, Bool.false_eq_true, if_false]
      exact tids_store w _
    · simp only [hm]
      rfl

/-- C8: in every state reachable from the initial one by calls of `mainloop_init`,
`mainloop_run` and the other operations from any threads, the registry holds at
most one context per thread identity; and `mainloop_init` on a thread that already
has a context leaves the whole state, the registry and that context included,
unchanged. -/
theorem registry_one_context_per_thread (w : World) (h : Reach w) :
    w.tids.Nodup ∧
      ∀ (env : InitEnv) (tid : Nat) (tdata : thread_data),
        find_thread_data_by_tid w tid = some tdata → mainloop_init env tid w = some w := by
  constructor
  · induction h with
    | initial => exact List.nodup_nil
    | init env tid w w' _ hi ih =>
      rcases init_tids env tid w w' hi with h | ⟨hn, h⟩
      · rw [h]; exact ih
      · rw [h]
        exact List.Nodup.append ih (List.nodup_singleton _)
          (fun a ha hb => hn (by rw [List.mem_singleton] at hb; rw [← hb]; exact ha))
    | run depth U env tid waits w _ ih =>
      rcases run_tids depth U env tid waits w with h | h
      · rw [h]; exact ih
      · rw [h]; exact List.Nodup.erase _ ih
    | call depth U tid c w _ ih => rw [do_call_tids]; exact ih
    | set_signal malloc_ok tid mask callback user_data destroy w _ ih =>
      rw [set_signal_tids]; exact ih
  · intro env tid tdata hf
    unfold mainloop_init
    cases hq : w.threads_data with
    | none => simp [find_thread_data_by_tid, queue_find, hq] at hf
    | some l =>
      have hw1 : ({ w with threads_data := some l } : World) = w := by
        cases w
        simp only at hq
        rw [hq]
      simp only [hw1, hf]

/-- Witness of C8: the state after thread 1 called `mainloop_init`. -/
theorem registry_one_context_per_thread_witness :
    sample_world.tids.Nodup ∧
      ∀ (env : InitEnv) (tid : Nat) (tdata : thread_data),
        find_thread_data_by_tid sample_world tid = some tdata →
          mainloop_init env tid sample_world = some sample_world :=
  registry_one_context_per_thread sample_world
    (Reach.init (InitEnv.good 3) 1 World.initial sample_world Reach.initial rfl)

/-! ## Timer programming -/

/-- C9: for every `msec` below 2^32, `timeout_set` programs the timer with a zero
interval and the initial value `tv_sec = msec / 1000`,
`tv_nsec = (msec mod 1000) * 1000000`, which is `msec * 10^6` nanoseconds with
`tv_nsec` at most 999000000; the 32-bit intermediate products `sec * 1000` and
`(msec - sec * 1000) * 1000 * 1000` stay below 2^32 and the subtraction does not
go below zero, so the wrapping arithmetic gives the exact value. -/
theorem timeout_set_one_shot (r fd : Int) (msec : Nat) (w : World)
    (h : msec < 4294967296) :
    timeout_set r fd msec w =
        (w.emit (Event.settime fd
          { it_interval_tv_sec := 0, it_interval_tv_nsec := 0,
            it_value_tv_sec := msec / 1000,
            it_value_tv_nsec := (msec % 1000) * 1000000 }), r) ∧
      (timeout_itimer msec).it_value_tv_sec * 1000000000 +
        (timeout_itimer msec).it_value_tv_nsec = msec * 1000000 ∧
      (timeout_itimer msec).it_value_tv_nsec ≤ 999000000 ∧
      (timeout_itimer msec).it_value_tv_nsec =
        (msec - msec / 1000 * 1000) * 1000 * 1000 ∧
      msec / 1000 * 1000 ≤ msec ∧
      msec / 1000 * 1000 < 4294967296 ∧
      (msec - msec / 1000 * 1000) * 1000 * 1000 < 4294967296 := by
  have h1 : msec / 1000 * 1000 ≤ msec := Nat.div_mul_le_self msec 1000
  have h2 : msec - msec / 1000 * 1000 = msec % 1000 := by
    have := Nat.div_add_mod msec 1000
    omega
  have h3 : msec % 1000 < 1000 := Nat.mod_lt _ (by norm_num)
  have hn : (timeout_itimer msec).it_value_tv_nsec = (msec % 1000) * 1000000 := by
    simp only [timeout_itimer]
    have e1 : (msec / 1000 * 1000) % 4294967296 = msec / 1000 * 1000 :=
      Nat.mod_eq_of_lt (by omega)
    have e2 : (msec + 4294967296 - msec / 1000 * 1000) % 4294967296 = msec % 1000 := by
      have : msec + 4294967296 - msec / 1000 * 1000 = msec % 1000 + 4294967296 := by omega
      rw [this, Nat.add_mod_right]
      exact Nat.mod_eq_of_lt (by omega)
    rw [e1, e2]
    have e3 : (msec % 1000 * 1000) % 4294967296 = msec % 1000 * 1000 :=
      Nat.mod_eq_of_lt (by omega)
    rw [e3]
    have e4 : (msec % 1000 * 1000 * 1000) % 4294967296 = msec % 1000 * 1000 * 1000 :=
      Nat.mod_eq_of_lt (by omega)
    rw [e4]
    omega
  have hs : (timeout_itimer msec).it_value_tv_sec = msec / 1000 := rfl
  refine ⟨?_, ?_, ?_, ?_, h1, by omega, ?_⟩
  · simp only [timeout_set]
    congr 2
    have hi : timeout_itimer msec =
        { it_interval_tv_sec := 0, it_interval_tv_nsec := 0,
          it_value_tv_sec := (timeout_itimer msec).it_value_tv_sec,
          it_value_tv_nsec := (timeout_itimer msec).it_value_tv_nsec } := rfl
    rw [hi, hn, hs]
  · rw [hn, hs]
    have := Nat.div_add_mod msec 1000
    omega
  · rw [hn]; omega
  · rw [hn, h2]; omega
  · rw [h2]; omega

/-- Witness of C9 at the largest `unsigned int`. -/
theorem timeout_set_one_shot_witness :
    (timeout_set 0 7 4294967295 World.initial).1.log =
      [Event.settime 7 (itimerspec.mk 0 0 4294967 295000000)] := by
  have h := (timeout_set_one_shot 0 7 4294967295 World.initial (by norm_num)).1
  rw [h]
  rfl

/-! ## Argument and lookup errors -/

/-- C2: on an initialized thread, `mainloop_add_fd` with a negative descriptor or
an absent callback returns `-EINVAL` and leaves the whole state, in particular
the watcher collection and the epoll interest set, as it was. -/
theorem add_fd_invalid_argument (env : AddEnv) (tid : Nat) (fd : Int) (events : Nat)
    (callback : Option Callback) (user_data : Nat) (destroy : Option Nat) (w : World)
    (tdata : thread_data) (hinit : find_thread_data_by_tid w tid = some tdata)
    (hbad : fd < 0 ∨ callback = none) :
    (mainloop_add_fd env tid fd events callback user_data destroy w).2 = -EINVAL ∧
      (mainloop_add_fd env tid fd events callback user_data destroy w).1 = w := by
  unfold mainloop_add_fd
  simp only [hinit]
  by_cases hfd : fd < 0
  · simp [hfd]
  · rcases hbad with h | h
    · exact absurd h hfd
    · simp [hfd, h]

/-- Witness of C2: a negative descriptor, and an absent callback. -/
theorem add_fd_invalid_argument_witness :
    ((mainloop_add_fd AddEnv.good 1 (-1) EPOLLIN (some (Callback.user 0)) 0 none
        sample_world).2 = -EINVAL ∧
      (mainloop_add_fd AddEnv.good 1 (-1) EPOLLIN (some (Callback.user 0)) 0 none
        sample_world).1 = sample_world) ∧
    ((mainloop_add_fd AddEnv.good 1 4 EPOLLIN none 0 none sample_world).2 = -EINVAL ∧
      (mainloop_add_fd AddEnv.good 1 4 EPOLLIN none 0 none sample_world).1 = sample_world) :=
  ⟨add_fd_invalid_argument AddEnv.good 1 (-1) EPOLLIN (some (Callback.user 0)) 0 none
      sample_world sample_tdata rfl (Or.inl (by decide)),
   add_fd_invalid_argument AddEnv.good 1 4 EPOLLIN none 0 none sample_world sample_tdata
      rfl (Or.inr rfl)⟩

/-- C5: a call of `mainloop_add_fd` that returns a negative value leaves the
registry with every watcher collection, and the epoll interest sets, equal to what
they were before the call; when the append fails after the registration succeeded,
the `EPOLL_CTL_DEL` of the rollback has removed the interest just registered. -/
theorem add_fd_failure_atomic (env : AddEnv) (tid : Nat) (fd : Int) (events : Nat)
    (callback : Option Callback) (user_data : Nat) (destroy : Option Nat) (w : World)
    (hneg : (mainloop_add_fd env tid fd events callback user_data destroy w).2 < 0) :
    (mainloop_add_fd env tid fd events callback user_data destroy w).1.threads_data =
        w.threads_data ∧
      (mainloop_add_fd env tid fd events callback user_data destroy w).1.interest =
        w.interest := by
  unfold mainloop_add_fd at *
  cases hf : find_thread_data_by_tid w tid with
  | none => simp
  | some tdata =>
    simp only [hf] at hneg ⊢
    by_cases hfd : fd < 0
    · simp [hfd]
    · simp only [hfd, if_false] at hneg ⊢
      cases callback with
      | none => simp
      | some cb =>
        simp only at hneg ⊢
        by_cases hm : env.malloc_ok = true
        · simp only [hm, Bool.not_true, Bool.false_eq_true, if_false] at hneg ⊢
          by_cases he : (epoll_ctl w.interest env.epoll_permit tdata.epoll_fd
              EpollOp.EPOLL_CTL_ADD fd events (malloc env.addr w.heap)).2 < 0
          · rw [if_pos he]
            exact ⟨rfl, epoll_ctl_fail _ _ _ _ _ _ _ he⟩
          · simp only [he, if_false] at hneg ⊢
            by_cases hq : (queue_push_tail tdata.mainloop_list env.push_ok
                ({ addr := malloc env.addr w.heap, block := w.next_block, fd := fd,
                   events := events, callback := cb, destroy := destroy,
                   user_data := user_data, epoll_fd := tdata.epoll_fd } : mainloop_data)).2 =
                true
            · simp [hq] at hneg
            · simp only [Bool.not_eq_true] at hq
              rw [hq]
              simp only [Bool.not_false, if_true]
              exact ⟨rfl, epoll_add_del _ _ _ _ _ _ he⟩
        · simp [hm]

/-- Witness of C5: the append fails after the registration succeeded. -/
theorem add_fd_failure_atomic_witness :
    (mainloop_add_fd (AddEnv.mk true 0 true false) 1 4 EPOLLIN (some (Callback.user 0)) 0
        none sample_world).2 = -1 ∧
      (mainloop_add_fd (AddEnv.mk true 0 true false) 1 4 EPOLLIN (some (Callback.user 0)) 0
        none sample_world).1.threads_data = sample_world.threads_data ∧
      (mainloop_add_fd (AddEnv.mk true 0 true false) 1 4 EPOLLIN (some (Callback.user 0)) 0
        none sample_world).1.interest = sample_world.interest :=
  ⟨by decide,
   add_fd_failure_atomic (AddEnv.mk true 0 true false) 1 4 EPOLLIN
     (some (Callback.user 0)) 0 none sample_world (by decide)⟩

/-- C6 as stated fails: with no watcher for identifier 5 on an initialized thread,
`mainloop_modify_timeout` returns `- EIO`, which is not `- ENXIO`. -/
theorem modify_timeout_not_found_counterexample :
    find_thread_data_by_tid sample_world 1 = some sample_tdata ∧
      queue_find sample_tdata.mainloop_list (match_by_fd 5) = none ∧
      (mainloop_modify_timeout 0 true 1 5 100 sample_world).2 = - EIO ∧
      (mainloop_modify_timeout 0 true 1 5 100 sample_world).2 ≠ - ENXIO := by
  decide

/-- C6, amended: when the calling thread's context has no watcher matching
`id >= 0`, `mainloop_modify_fd`, `mainloop_remove_fd` and `mainloop_remove_timeout`
return `- ENXIO` and leave the state as it was, and `mainloop_modify_timeout`
returns `- EIO` for every duration and leaves the registry, with every watcher
collection, and the interest sets as they were. -/
theorem unmatched_id_errors (depth : Nat) (U : Client) (tid : Nat) (id : Int) (w : World)
    (tdata : thread_data) (permit : Bool) (events msec : Nat) (settime : Int)
    (hinit : find_thread_data_by_tid w tid = some tdata) (hid : 0 ≤ id)
    (hno : queue_find tdata.mainloop_list (match_by_fd id) = none) :
    mainloop_modify_fd permit tid id events w = (w, - ENXIO) ∧
      mainloop_remove_fd depth U tid id w = (w, - ENXIO) ∧
      mainloop_remove_timeout depth U tid id w = (w, - ENXIO) ∧
      (mainloop_modify_timeout settime permit tid id msec w).2 = - EIO ∧
      (mainloop_modify_timeout settime permit tid id msec w).1.threads_data =
        w.threads_data ∧
      (mainloop_modify_timeout settime permit tid id msec w).1.interest = w.interest := by
  have hnot : ¬ id < 0 := not_lt.mpr hid
  have hmod : ∀ (w' : World), w'.threads_data = w.threads_data →
      mainloop_modify_fd permit tid id (EPOLLIN ||| EPOLLONESHOT) w' = (w', - ENXIO) := by
    intro w' hw'
    unfold mainloop_modify_fd
    rw [find_congr hw' tid, hinit]
    simp only [hnot, if_false, hno]
  refine ⟨?_, ?_, ?_, ?_⟩
  · unfold mainloop_modify_fd
    simp only [hinit, hnot, if_false, hno]
  · unfold mainloop_remove_fd remove_fd_with
    simp only [hinit, hnot, if_false, hno]
  · unfold mainloop_remove_timeout mainloop_remove_fd remove_fd_with
    simp only [hinit, hnot, if_false, hno]
  · unfold mainloop_modify_timeout
    by_cases hm : msec > 0
    · simp only [hm, if_true]
      by_cases hr : (timeout_set settime id msec w).2 < 0
      · rw [if_pos hr]
        exact ⟨rfl, rfl, rfl⟩
      · simp only [hr, if_false]
        rw [hmod (timeout_set settime id msec w).1 rfl]
        simp [ ENXIO, timeout_set]
    · simp only [hm, if_false]
      rw [hmod w rfl]
      simp [ ENXIO]

/-- Witness of the amended C6 on a fresh context. -/
theorem unmatched_id_errors_witness :
    mainloop_modify_fd true 1 5 EPOLLIN sample_world = (sample_world, - ENXIO) ∧
      mainloop_remove_fd 1 Client.idle 1 5 sample_world = (sample_world, - ENXIO) ∧
      mainloop_remove_timeout 1 Client.idle 1 5 sample_world = (sample_world, - ENXIO) ∧
      (mainloop_modify_timeout 0 true 1 5 100 sample_world).2 = - EIO ∧
      (mainloop_modify_timeout 0 true 1 5 100 sample_world).1.threads_data =
        sample_world.threads_data ∧
      (mainloop_modify_timeout 0 true 1 5 100 sample_world).1.interest =
        sample_world.interest :=
  unmatched_id_errors 1 Client.idle 1 5 sample_world sample_tdata true EPOLLIN 100 0 rfl
    (by decide) rfl

/-- C7 as stated fails: on a thread without context `mainloop_add_fd`,
`mainloop_modify_fd`, `mainloop_remove_fd` and `mainloop_set_signal` return the
very value they return on an initialized thread for a negative descriptor or an
absent mask. -/
theorem no_context_error_counterexample :
    find_thread_data_by_tid World.initial 1 = none ∧
      find_thread_data_by_tid sample_world 1 = some sample_tdata ∧
      (mainloop_add_fd AddEnv.good 1 4 EPOLLIN (some (Callback.user 0)) 0 none
          World.initial).2 =
        (mainloop_add_fd AddEnv.good 1 (-1) EPOLLIN (some (Callback.user 0)) 0 none
          sample_world).2 ∧
      (mainloop_modify_fd true 1 4 EPOLLIN World.initial).2 =
        (mainloop_modify_fd true 1 (-1) EPOLLIN sample_world).2 ∧
      (mainloop_remove_fd 1 Client.idle 1 4 World.initial).2 =
        (mainloop_remove_fd 1 Client.idle 1 (-1) sample_world).2 ∧
      (mainloop_set_signal true 1 (some 2) (some 0) 0 none World.initial).2 =
        (mainloop_set_signal true 1 none (some 0) 0 none sample_world).2 := by
  decide

/-- C7, amended: on a thread that has no context in the registry,
`mainloop_add_fd`, `mainloop_modify_fd`, `mainloop_remove_fd` and
`mainloop_set_signal` return `-EINVAL` and leave the state as it was; `-EINVAL` is
also what they return on an initialized thread for a negative descriptor, an
absent callback or an absent mask. -/
theorem no_context_errors (depth : Nat) (U : Client) (tid : Nat) (w : World)
    (hnone : find_thread_data_by_tid w tid = none)
    (env : AddEnv) (fd : Int) (events : Nat) (callback : Option Callback)
    (user_data : Nat) (destroy : Option Nat) (permit malloc_ok : Bool)
    (mask cb : Option Nat)
    (tid' : Nat) (w' : World) (tdata : thread_data)
    (hinit : find_thread_data_by_tid w' tid' = some tdata)
    (fd' : Int) (hfd' : fd' < 0) :
    mainloop_add_fd env tid fd events callback user_data destroy w = (w, -EINVAL) ∧
      mainloop_modify_fd permit tid fd events w = (w, -EINVAL) ∧
      mainloop_remove_fd depth U tid fd w = (w, -EINVAL) ∧
      mainloop_set_signal malloc_ok tid mask cb user_data destroy w = (w, -EINVAL) ∧
      mainloop_add_fd env tid' fd' events callback user_data destroy w' = (w', -EINVAL) ∧
      mainloop_add_fd env tid' fd events none user_data destroy w' = (w', -EINVAL) ∧
      mainloop_modify_fd permit tid' fd' events w' = (w', -EINVAL) ∧
      mainloop_remove_fd depth U tid' fd' w' = (w', -EINVAL) ∧
      mainloop_set_signal malloc_ok tid' none cb user_data destroy w' = (w', -EINVAL) ∧
      mainloop_set_signal malloc_ok tid' mask none user_data destroy w' =
        (w', -EINVAL) := by
  refine ⟨?_, ?_, ?_, ?_, ?_, ?_, ?_, ?_, ?_, ?_⟩
  · simp only [mainloop_add_fd, hnone]
  · simp only [mainloop_modify_fd, hnone]
  · simp only [mainloop_remove_fd, remove_fd_with, hnone]
  · simp only [mainloop_set_signal, hnone]
  · simp only [mainloop_add_fd, hinit, hfd', if_true]
  · simp only [mainloop_add_fd, hinit]
    split <;> rfl
  · simp only [mainloop_modify_fd, hinit, hfd', if_true]
  · simp only [mainloop_remove_fd, remove_fd_with, hinit, hfd', if_true]
  · simp only [mainloop_set_signal, hinit]
  · simp only [mainloop_set_signal, hinit]

/-- Witness of the amended C7: thread 1 without context, and thread 1
initialized. -/
theorem no_context_errors_witness :
    mainloop_add_fd AddEnv.good 1 4 EPOLLIN (some (Callback.user 0)) 0 none World.initial =
        (World.initial, -EINVAL) ∧
      mainloop_remove_fd 1 Client.idle 1 (-1) sample_world = (sample_world, -EINVAL) :=
  have h := no_context_errors 1 Client.idle 1 World.initial rfl AddEnv.good 4 EPOLLIN
    (some (Callback.user 0)) 0 none true true (some 2) (some 0) 1 sample_world
    sample_tdata rfl (-1) (by decide)
  ⟨h.1, h.2.2.2.2.2.2.2.1⟩

/-! ## Watcher lifecycle -/

/-- The books of a context stay balanced under any sequence of interface calls of
its thread. -/
theorem accounted_run_script (depth : Nat) (U : Client) (tid : Nat) (s : List Call)
    (w : World) (tdata : thread_data) (base : List (Nat × Nat × Nat)) (held : List Nat)
    (lo : Nat) (hinit : find_thread_data_by_tid w tid = some tdata)
    (hacc : Accounted base held lo (w.view tdata)) :
    ∃ td, find_thread_data_by_tid (run_script depth U tid s w) tid = some td ∧
      Accounted base held lo ((run_script depth U tid s w).view td) := by
  have hw : (find_thread_data_by_tid w tid).isSome := by rw [hinit]; rfl
  have htid : tdata.tid = tid := find_tid hinit
  obtain ⟨L', e, r⟩ := lifts_run_script depth U tid s w (w.view tdata) hw htid
  rw [put_view hinit] at e
  refine ⟨L'.tdata, ?_, ?_⟩
  · rw [e]
    exact find_put_tid hw (r.1.tid.trans htid)
  · rw [e]
    exact r.2 base held lo hacc

end Mainloop
